import Mathlib

/-!
# Thread-safe alarm queue (`aq_tsafe.c`)

A shallow embedding of the alarm queue of `aq_tsafe.c`.

* Pointers (`void *`, `struct MsgNode *`, `void **`, the handle) are natural
  numbers, `NULL` is `0`.
* The `MsgNode` objects that `aq_send` obtains from `malloc` and `aq_recv`
  gives back with `free` live in an explicit node memory `mem`; the pointer
  returned by `malloc` is an argument of `aq_send` (`NULL` when the
  allocation fails).
* Every public function runs its body between `pthread_mutex_lock` and
  `pthread_mutex_unlock` (or a `pthread_cond_wait`, which releases the
  mutex), so a call is one atomic transition of the queue record.  A call
  that reaches `pthread_cond_wait` is suspended: its outcome is `wait`, and
  no field has been written.  When it is woken it re-tests the guard of its
  `while` loop; the code in front of the loop only looks at the arguments,
  so continuing is the same transition as a new call on the state of that
  moment.
* The constants of `aq.h` are not part of the sources; they are the fields
  of a parameter `AqCodes`.
* The counter `size` is a C `int` of 32 bits: `size++` and `size--` are
  computed modulo `2 ^ 32` in two's complement (`wrapInt`), which is what the
  compiled code does when the counter passes `INT_MAX`.  Statements that read
  the counter as a number of messages carry the hypothesis that at most
  `INT_MAX` messages are pending.
-/

namespace AqTsafe

/-- Machine addresses. -/
abbrev Ptr := Nat

/-- The null pointer. -/
abbrev NULL : Ptr := 0

/-- The largest value of a C `int`. -/
def INT_MAX : Int := 2147483647

/-- The value of an `int` expression whose mathematical value is `x`: `x`
reduced modulo `2 ^ 32` into the range `-2 ^ 31 .. 2 ^ 31 - 1`. -/
def wrapInt (x : Int) : Int := (x + 2147483648) % 4294967296 - 2147483648

/-- The constants that `aq.h` defines (`MsgKind` values and result codes). -/
structure AqCodes where
  AQ_ALARM : Int
  AQ_NORMAL : Int
  AQ_UNINIT : Int
  AQ_NULL_MSG : Int
  AQ_NO_ROOM : Int
  AQ_NO_MSG : Int
deriving DecidableEq, Repr

/-- The C type `struct MsgNode`. -/
structure MsgNode where
  payload : Ptr
  next : Ptr
deriving DecidableEq, Repr

/-- The node memory: which addresses hold a live `MsgNode`, and its contents. -/
abbrev Heap := Ptr → Option MsgNode

/-- The C type `struct AlarmQueueStruct` (the mutex and the two condition variables are
not data), together with the memory of the nodes the queue has allocated.
The field `size` is the `int` counter: `aq_send` and `aq_recv` update it
with `wrapInt`, so that it stays in the range of an `int`. -/
structure AlarmQueueStruct where
  head : Ptr
  tail : Ptr
  hasAlarm : Bool
  alarm_payload : Ptr
  size : Int
  mem : Heap

/-- A handle: `none` is the `NULL` handle, `some q` a handle to the record `q`. -/
abbrev AlarmQueue := Option AlarmQueueStruct

/-- What one call does.
* `ret code out aq`: the call returned `code`; `out` is the value it stored
  through its output pointer (`none`: nothing stored); `aq` is the queue
  afterwards.
* `wait aq`: the call is suspended in `pthread_cond_wait`.
* `fault`: the call dereferenced a pointer that is `NULL` or not a live node. -/
inductive Outcome where
  | ret (code : Int) (out : Option Ptr) (aq : AlarmQueue)
  | wait (aq : AlarmQueue)
  | fault

/-- Reading `*p` for a `struct MsgNode *p`. -/
def deref (mem : Heap) (p : Ptr) : Option MsgNode :=
  if p = NULL then none else mem p

/-- The function `aq_create`; `q` is the result of its `malloc`. -/
def aq_create (q : Ptr) : AlarmQueue :=
  if q = NULL then none
  else some
    { head := NULL, tail := NULL, hasAlarm := false, alarm_payload := NULL, size := 0,
      mem := fun _ => none }

/-- The function `aq_send`; `newNode` is the result of the `malloc` of the normal
branch (the alarm branch does not call `malloc` and ignores it). -/
def aq_send (c : AqCodes) (aq : AlarmQueue) (msg : Ptr) (k : Int) (newNode : Ptr) : Outcome :=
  match aq with
  | none => .ret c.AQ_UNINIT none none
  | some queue =>
    if msg = NULL then .ret c.AQ_NULL_MSG none (some queue)
    else if k = c.AQ_ALARM then
      if queue.hasAlarm then .wait (some queue)
      else
        .ret 0 none
          (some { queue with alarm_payload := msg, hasAlarm := true, size := wrapInt (queue.size + 1) })
    else
      if newNode = NULL then .ret c.AQ_NO_ROOM none (some queue)
      else
        let mem1 : Heap := Function.update queue.mem newNode (some { payload := msg, next := NULL })
        if queue.tail ≠ NULL then
          match deref mem1 queue.tail with
          | none => .fault
          | some t =>
            .ret 0 none
              (some { queue with
                mem := Function.update mem1 queue.tail (some { t with next := newNode })
                tail := newNode
                size := wrapInt (queue.size + 1) })
        else
          .ret 0 none
            (some { queue with
              mem := mem1
              head := newNode
              tail := newNode
              size := wrapInt (queue.size + 1) })

/-- The function `aq_recv`; `msg` is the output location (`void **`). -/
def aq_recv (c : AqCodes) (aq : AlarmQueue) (msg : Ptr) : Outcome :=
  match aq with
  | none => .ret c.AQ_UNINIT none none
  | some queue =>
    if msg = NULL then .ret c.AQ_NO_MSG none (some queue)
    else if queue.size = 0 then .wait (some queue)
    else if queue.hasAlarm then
      .ret c.AQ_ALARM (some queue.alarm_payload)
        (some { queue with alarm_payload := NULL, hasAlarm := false, size := wrapInt (queue.size - 1) })
    else
      match deref queue.mem queue.head with
      | none => .fault
      | some node =>
        .ret c.AQ_NORMAL (some node.payload)
          (some { queue with
            head := node.next
            tail := if node.next = NULL then NULL else queue.tail
            mem := Function.update queue.mem queue.head none
            size := wrapInt (queue.size - 1) })

/-- The function `aq_size`. -/
def aq_size (aq : AlarmQueue) : Int :=
  match aq with
  | none => 0
  | some queue => queue.size

/-- The function `aq_alarms`. -/
def aq_alarms (aq : AlarmQueue) : Int :=
  match aq with
  | none => 0
  | some queue => if queue.hasAlarm then 1 else 0

/-! ## Calls, traces and reachable states -/

/-- A call of one of the four operations on a queue. -/
inductive Op where
  | send (msg : Ptr) (k : Int) (newNode : Ptr)
  | recv (msg : Ptr)
  | size
  | alarms
deriving DecidableEq, Repr

/-- The outcome of a call. -/
def step (c : AqCodes) (aq : AlarmQueue) : Op → Outcome
  | .send msg k newNode => aq_send c aq msg k newNode
  | .recv msg => aq_recv c aq msg
  | .size => .ret (aq_size aq) none aq
  | .alarms => .ret (aq_alarms aq) none aq

/-- The queue after a call (`none` after a fault or on the `NULL` handle). -/
def Outcome.after : Outcome → AlarmQueue
  | .ret _ _ aq => aq
  | .wait aq => aq
  | .fault => none

/-- The return code of a call that returned. -/
def Outcome.code : Outcome → Option Int
  | .ret code _ _ => some code
  | _ => none

/-- The value a call stored through its output pointer. -/
def Outcome.out : Outcome → Option Ptr
  | .ret _ out _ => out
  | _ => none

/-- The contract of `malloc`: a pointer it returns is `NULL` or is not the
address of a node that is still live. -/
def mallocOk (s : AlarmQueueStruct) : Op → Prop
  | .send _ _ newNode => newNode = NULL ∨ s.mem newNode = none
  | _ => True

/-- The outcomes of a sequence of calls made one after the other, together
with the queue after the last one.  A suspended call leaves the queue as it
was; a fault ends the trace. -/
def run (c : AqCodes) : AlarmQueueStruct → List Op → List Outcome × AlarmQueue
  | s, [] => ([], some s)
  | s, op :: ops =>
    match (step c (some s) op).after with
    | some s1 => ((step c (some s) op) :: (run c s1 ops).1, (run c s1 ops).2)
    | none => ([step c (some s) op], none)

/-- Every `malloc` result along a trace obeys `mallocOk`. -/
def mallocOkAll (c : AqCodes) : AlarmQueueStruct → List Op → Prop
  | _, [] => True
  | s, op :: ops =>
    mallocOk s op ∧
      match (step c (some s) op).after with
      | some s1 => mallocOkAll c s1 ops
      | none => True

/-- The states a queue can be in: the state `aq_create` builds, and every
state a call leads to from such a state. -/
inductive Reachable (c : AqCodes) : AlarmQueueStruct → Prop
  | create (q : Ptr) (s : AlarmQueueStruct) (h : aq_create q = some s) : Reachable c s
  | step (s s1 : AlarmQueueStruct) (op : Op) (hs : Reachable c s) (hm : mallocOk s op)
      (h : (step c (some s) op).after = some s1) : Reachable c s1

/-! ## The normal list as a linked list in memory -/

/-- Address of the first node of a list of `(address, payload)` cells. -/
def firstAddr : List (Ptr × Ptr) → Ptr
  | [] => NULL
  | (a, _) :: _ => a

/-- Address of the last node of a list of `(address, payload)` cells. -/
def lastAddr : List (Ptr × Ptr) → Ptr
  | [] => NULL
  | [(a, _)] => a
  | _ :: r => lastAddr r

/-- The cells `l` are laid out in `mem` as a `NULL`-terminated chain: each
cell is a live node with its payload whose `next` is the following cell. -/
def Chain (mem : Heap) : List (Ptr × Ptr) → Prop
  | [] => True
  | (a, v) :: r => a ≠ NULL ∧ mem a = some { payload := v, next := firstAddr r } ∧ Chain mem r

/-- The normal list of `s` is exactly the cells `l`, from `head` on. -/
def NormalList (s : AlarmQueueStruct) (l : List (Ptr × Ptr)) : Prop :=
  s.head = firstAddr l ∧ Chain s.mem l

/-- The number of pending messages of a state whose normal list holds the
cells `l`: the cells, and the alarm when the slot is occupied. -/
def pending (s : AlarmQueueStruct) (l : List (Ptr × Ptr)) : Int :=
  (l.length : Int) + (if s.hasAlarm then 1 else 0)

/-- The representation invariant of the queue record, with the cells of its
normal list: `head` and `tail` delimit the chain, the nodes are distinct,
no other node is live, `size` is the `int` that counts the cells and the
alarm, and the alarm payload is non-null exactly when the slot is occupied. -/
structure WF (s : AlarmQueueStruct) (l : List (Ptr × Ptr)) : Prop where
  list : NormalList s l
  tail_eq : s.tail = lastAddr l
  nodup : (l.map Prod.fst).Nodup
  exact : ∀ p, p ∉ l.map Prod.fst → s.mem p = none
  count : s.size = wrapInt (pending s l)
  slot : s.hasAlarm = false → s.alarm_payload = NULL
  slot_set : s.hasAlarm = true → s.alarm_payload ≠ NULL

/-! ## Example data -/

/-- A choice of the constants of `aq.h`. -/
def exCodes : AqCodes :=
  { AQ_ALARM := 1, AQ_NORMAL := 0, AQ_UNINIT := -1, AQ_NULL_MSG := -2, AQ_NO_ROOM := -3,
    AQ_NO_MSG := -4 }

/-- The state of a new queue. -/
def exEmpty : AlarmQueueStruct :=
  { head := NULL, tail := NULL, hasAlarm := false, alarm_payload := NULL, size := 0,
    mem := fun _ => none }

/-- The state after a normal send of payload `5` (node at `10`) and an alarm
send of payload `7`. -/
def exBoth : AlarmQueueStruct :=
  { head := 10, tail := 10, hasAlarm := true, alarm_payload := 7, size := 2,
    mem := Function.update (fun _ => none) 10 (some { payload := 5, next := NULL }) }

/-- What a caller sees of a call: the return code and the value stored through
the output pointer. -/
def Outcome.obs (o : Outcome) : Option Int × Option Ptr := (o.code, o.out)

/-- The calls `aq_send(q, payload, k)` for a list of `(malloc result, payload)`
pairs. -/
def sends (k : Int) (cells : List (Ptr × Ptr)) : List Op :=
  cells.map fun x => Op.send x.2 k x.1

/-- A call together with its outcome. -/
abbrev Event := Op × Outcome

/-- The calls of a trace from `s`, each with its outcome. -/
def events (c : AqCodes) (s : AlarmQueueStruct) (ops : List Op) : List Event :=
  ops.zip (run c s ops).1

/-- The event is an `aq_send` that returned `0`. -/
def sendReturned0 (e : Event) : Bool :=
  match e.1 with
  | .send _ _ _ => e.2.code == some 0
  | _ => false

/-- The event is an `aq_recv` that returned `AQ_ALARM` or `AQ_NORMAL`. -/
def recvDelivered (c : AqCodes) (e : Event) : Bool :=
  match e.1 with
  | .recv _ => e.2.code == some c.AQ_ALARM || e.2.code == some c.AQ_NORMAL
  | _ => false

/-- The event is an `aq_send` of kind `AQ_ALARM` that returned `0`. -/
def alarmSent (c : AqCodes) (e : Event) : Bool :=
  match e.1 with
  | .send _ k _ => k == c.AQ_ALARM && e.2.code == some 0
  | _ => false

/-- The event is an `aq_recv` that returned `AQ_ALARM`. -/
def alarmReceived (c : AqCodes) (e : Event) : Bool :=
  match e.1 with
  | .recv _ => e.2.code == some c.AQ_ALARM
  | _ => false

/-- There is a successful alarm send in the history, and the most recent one
has not been followed by a receive that returned `AQ_ALARM`. -/
def alarmOutstanding (c : AqCodes) : List Event → Bool
  | [] => false
  | e :: rest =>
    if rest.any (alarmSent c) then alarmOutstanding c rest
    else alarmSent c e && !rest.any (alarmReceived c)

/-- The slot flag after a history that started with the flag `b`: a
successful alarm send sets it, a receive that returned `AQ_ALARM` clears it. -/
def slotAfter (c : AqCodes) (b : Bool) : List Event → Bool
  | [] => b
  | e :: rest =>
    slotAfter c (if alarmSent c e then true else if alarmReceived c e then false else b) rest

/-- A trace on a new queue: two normal sends, a send with a `NULL` payload,
an alarm send, an alarm send that has to wait, two receives, a receive with
a `NULL` output location, and an alarm send. -/
def exOps : List Op :=
  [.send 5 0 10, .send 6 0 11, .send 0 0 12, .send 7 1 0, .send 8 1 0, .recv 1, .recv 1,
    .recv 0, .send 9 1 0]

/-- The state after a normal send of payload `5` (node at `10`) on a new
queue. -/
def exOne : AlarmQueueStruct :=
  { head := 10, tail := 10, hasAlarm := false, alarm_payload := NULL, size := 1,
    mem := Function.update (fun _ => none) 10 (some { payload := 5, next := NULL }) }

/-! ## The `int` counter -/

theorem wrapInt_zero : wrapInt 0 = 0 := by decide

/-- Incrementing an `int` that is `INT_MAX` gives `INT_MIN`. -/
theorem wrapInt_overflow : wrapInt (INT_MAX + 1) = -2147483648 := by decide

theorem wrapInt_of_range (x : Int) (h0 : 0 ≤ x) (h1 : x ≤ INT_MAX) : wrapInt x = x := by
  unfold wrapInt
  unfold INT_MAX at h1
  omega

theorem wrapInt_add (a b : Int) : wrapInt (wrapInt a + b) = wrapInt (a + b) := by
  unfold wrapInt
  omega

theorem wrapInt_sub (a b : Int) : wrapInt (wrapInt a - b) = wrapInt (a - b) := by
  unfold wrapInt
  omega

theorem wrapInt_idem (a : Int) : wrapInt (wrapInt a) = wrapInt a := by
  unfold wrapInt
  omega

theorem wrapInt_ne_zero (x : Int) (h : wrapInt x ≠ 0) : x ≠ 0 := by
  unfold wrapInt at h
  omega

theorem pending_of_free (s : AlarmQueueStruct) (l : List (Ptr × Ptr))
    (ha : s.hasAlarm = false) : pending s l = (l.length : Int) := by
  unfold pending
  rw [ha]
  simp

theorem pending_of_alarm (s : AlarmQueueStruct) (l : List (Ptr × Ptr))
    (ha : s.hasAlarm = true) : pending s l = (l.length : Int) + 1 := by
  unfold pending
  rw [ha]
  simp

theorem pending_nonneg (s : AlarmQueueStruct) (l : List (Ptr × Ptr)) : 0 ≤ pending s l := by
  unfold pending
  split <;> omega

/-! ## Memory lemmas -/

theorem firstAddr_append (l : List (Ptr × Ptr)) (x : Ptr × Ptr) (hl : l ≠ []) :
    firstAddr (l ++ [x]) = firstAddr l := by
  cases l with
  | nil => exact absurd rfl hl
  | cons y r => rfl

theorem lastAddr_cons_cons (x y : Ptr × Ptr) (r : List (Ptr × Ptr)) :
    lastAddr (x :: y :: r) = lastAddr (y :: r) := by
  cases x; rfl

theorem lastAddr_mem (l : List (Ptr × Ptr)) (hl : l ≠ []) :
    lastAddr l ∈ l.map Prod.fst := by
  induction l with
  | nil => exact absurd rfl hl
  | cons x r ih =>
    cases r with
    | nil => cases x; simp [lastAddr]
    | cons y r =>
      rw [lastAddr_cons_cons]
      exact List.mem_cons_of_mem _ (ih (by simp))

theorem lastAddr_snoc (l : List (Ptr × Ptr)) (a v : Ptr) :
    lastAddr (l ++ [(a, v)]) = a := by
  induction l with
  | nil => rfl
  | cons x r ih =>
    cases r with
    | nil => cases x; simp [lastAddr]
    | cons y r =>
      have : (x :: y :: r) ++ [(a, v)] = x :: y :: (r ++ [(a, v)]) := rfl
      rw [this, lastAddr_cons_cons]
      exact ih

theorem Chain.mem_some {mem : Heap} {l : List (Ptr × Ptr)} (hc : Chain mem l) {p : Ptr}
    (hp : p ∈ l.map Prod.fst) : ∃ n, mem p = some n ∧ p ≠ NULL := by
  induction l with
  | nil => simp at hp
  | cons x r ih =>
    obtain ⟨a, v⟩ := x
    obtain ⟨h0, hm, hr⟩ := hc
    simp only [List.map_cons, List.mem_cons] at hp
    rcases hp with rfl | hp
    · exact ⟨_, hm, h0⟩
    · exact ih hr hp

theorem Chain.update_of_not_mem {mem : Heap} {l : List (Ptr × Ptr)} (hc : Chain mem l)
    (p : Ptr) (x : Option MsgNode) (hp : p ∉ l.map Prod.fst) :
    Chain (Function.update mem p x) l := by
  induction l with
  | nil => trivial
  | cons y r ih =>
    obtain ⟨a, v⟩ := y
    obtain ⟨h0, hm, hr⟩ := hc
    simp only [List.map_cons, List.mem_cons, not_or] at hp
    refine ⟨h0, ?_, ih hr hp.2⟩
    rw [Function.update_noteq (Ne.symm hp.1)]
    exact hm

theorem Chain.last_next {mem : Heap} {l : List (Ptr × Ptr)} (hc : Chain mem l) (hl : l ≠ []) :
    ∃ v, mem (lastAddr l) = some { payload := v, next := NULL } := by
  induction l with
  | nil => exact absurd rfl hl
  | cons x r ih =>
    cases r with
    | nil =>
      obtain ⟨a, v⟩ := x
      exact ⟨v, hc.2.1⟩
    | cons y r =>
      rw [lastAddr_cons_cons]
      obtain ⟨a, v⟩ := x
      exact ih hc.2.2 (by simp)

/-- Linking a fresh node behind the last cell extends the chain by one cell. -/
theorem Chain.snoc {mem : Heap} {l : List (Ptr × Ptr)} (hc : Chain mem l)
    (hnd : (l.map Prod.fst).Nodup) (hl : l ≠ []) (n msg : Ptr) (hn : n ≠ NULL)
    (hfresh : mem n = none) (t : MsgNode)
    (ht : mem (lastAddr l) = some t) :
    Chain
      (Function.update (Function.update mem n (some { payload := msg, next := NULL }))
        (lastAddr l) (some { t with next := n }))
      (l ++ [(n, msg)]) := by
  induction l with
  | nil => exact absurd rfl hl
  | cons x r ih =>
    obtain ⟨a, v⟩ := x
    have han : a ≠ n := by
      rintro rfl
      rw [hc.2.1] at hfresh
      exact absurd hfresh (by simp)
    cases r with
    | nil =>
      simp only [lastAddr] at ht ⊢
      have htv : t = { payload := v, next := NULL } := by
        have := hc.2.1
        simp only [firstAddr] at this
        rw [this] at ht
        exact (Option.some.inj ht).symm
      subst htv
      refine ⟨hc.1, ?_, hn, ?_, trivial⟩
      · simp [firstAddr]
      · rw [Function.update_noteq (Ne.symm han), Function.update_same]
        rfl
    | cons y r =>
      rw [lastAddr_cons_cons] at ht ⊢
      have hnd2 : ((y :: r).map Prod.fst).Nodup := (List.nodup_cons.mp hnd).2
      have hnot : a ∉ (y :: r).map Prod.fst := (List.nodup_cons.mp hnd).1
      have hlast : lastAddr (y :: r) ∈ (y :: r).map Prod.fst := lastAddr_mem _ (by simp)
      have hat : a ≠ lastAddr (y :: r) := fun h => hnot (h ▸ hlast)
      refine ⟨hc.1, ?_, ih hc.2.2 hnd2 (by simp) ht⟩
      rw [Function.update_noteq hat, Function.update_noteq han]
      have := hc.2.1
      obtain ⟨b, w⟩ := y
      exact this

/-! ## The operations on well-formed states -/

theorem WF.create (q : Ptr) (s : AlarmQueueStruct) (h : aq_create q = some s) : WF s [] := by
  unfold aq_create at h
  split at h
  · exact absurd h (by simp)
  · cases Option.some.inj h
    exact
      { list := ⟨rfl, trivial⟩, tail_eq := rfl, nodup := List.nodup_nil,
        exact := fun _ _ => rfl, count := by simp [pending, wrapInt_zero], slot := fun _ => rfl,
        slot_set := fun h => absurd h (by simp) }

theorem WF.fresh_not_mem {s : AlarmQueueStruct} {l : List (Ptr × Ptr)} (hw : WF s l) {n : Ptr}
    (hfresh : s.mem n = none) : n ∉ l.map Prod.fst := by
  intro hn
  obtain ⟨x, hx, _⟩ := hw.list.2.mem_some hn
  rw [hx] at hfresh
  exact absurd hfresh (by simp)

/-- A normal send whose allocation succeeded appends one cell. -/
theorem WF.send_normal (c : AqCodes) {s : AlarmQueueStruct} {l : List (Ptr × Ptr)} (hw : WF s l)
    (msg : Ptr) (k : Int) (n : Ptr) (hmsg : msg ≠ NULL) (hk : k ≠ c.AQ_ALARM) (hn : n ≠ NULL)
    (hfresh : s.mem n = none) :
    ∃ s1, aq_send c (some s) msg k n = .ret 0 none (some s1) ∧ WF s1 (l ++ [(n, msg)]) ∧
      s1.hasAlarm = s.hasAlarm ∧ s1.alarm_payload = s.alarm_payload ∧
      s1.size = wrapInt (s.size + 1) := by
  have hnl : n ∉ l.map Prod.fst := hw.fresh_not_mem hfresh
  by_cases hl : l = []
  · subst hl
    have ht : s.tail = NULL := hw.tail_eq
    refine ⟨{ s with
      mem := Function.update s.mem n (some { payload := msg, next := NULL })
      head := n, tail := n, size := wrapInt (s.size + 1) },
      by simp [aq_send, hmsg, hk, hn, ht], ?_, rfl, rfl, rfl⟩
    refine
      { list := ⟨rfl, hn, by simp [firstAddr], trivial⟩, tail_eq := rfl, nodup := by simp,
        exact := ?_, count := ?_, slot := hw.slot, slot_set := hw.slot_set }
    · intro p hp
      have hpn : p ≠ n := by simpa using hp
      show Function.update s.mem n _ p = none
      rw [Function.update_noteq hpn]
      exact hw.exact p (by simp)
    · show wrapInt (s.size + 1)
        = wrapInt ((([] ++ [(n, msg)] : List (Ptr × Ptr)).length : Int)
            + (if s.hasAlarm then 1 else 0))
      rw [hw.count, wrapInt_add]
      unfold pending
      congr 1
      rw [List.length_append, List.length_singleton]
      push_cast
      ring
  · have hlast := lastAddr_mem l hl
    obtain ⟨t, ht, ht0⟩ := hw.list.2.mem_some hlast
    rw [← hw.tail_eq] at ht ht0
    have htn : s.tail ≠ n := by
      rintro h
      rw [h, hfresh] at ht
      exact absurd ht (by simp)
    have hd : deref (Function.update s.mem n (some { payload := msg, next := NULL })) s.tail
        = some t := by
      unfold deref
      rw [if_neg ht0, Function.update_noteq htn]
      exact ht
    refine ⟨{ s with
      mem := Function.update (Function.update s.mem n (some { payload := msg, next := NULL }))
        s.tail (some { t with next := n })
      tail := n, size := wrapInt (s.size + 1) },
      by simp only [aq_send, if_neg hmsg, if_neg hk, if_neg hn, ne_eq, ht0,
        not_false_eq_true, if_true, hd], ?_, rfl, rfl, rfl⟩
    refine
      { list := ⟨?_, ?_⟩, tail_eq := (lastAddr_snoc l n msg).symm, nodup := ?_,
        exact := ?_, count := ?_, slot := hw.slot, slot_set := hw.slot_set }
    · show s.head = _
      rw [firstAddr_append l _ hl]
      exact hw.list.1
    · show Chain (Function.update (Function.update s.mem n _) s.tail _) _
      rw [hw.tail_eq]
      exact hw.list.2.snoc hw.nodup hl n msg hn hfresh t (hw.tail_eq ▸ ht)
    · rw [List.map_append, List.nodup_append]
      refine ⟨hw.nodup, by simp, ?_⟩
      intro a ha hb
      simp only [List.map_cons, List.map_nil, List.mem_singleton] at hb
      exact hnl (hb ▸ ha)
    · intro p hp
      simp only [List.map_append, List.map_cons, List.map_nil, List.mem_append,
        List.mem_singleton, not_or] at hp
      have hpt : p ≠ s.tail := by
        rintro rfl
        exact hp.1 (hw.tail_eq ▸ hlast)
      show Function.update (Function.update s.mem n _) s.tail _ p = none
      rw [Function.update_noteq hpt, Function.update_noteq hp.2]
      exact hw.exact p hp.1
    · show wrapInt (s.size + 1)
        = wrapInt (((l ++ [(n, msg)]).length : Int) + (if s.hasAlarm then 1 else 0))
      rw [hw.count, wrapInt_add]
      unfold pending
      congr 1
      rw [List.length_append, List.length_singleton]
      push_cast
      ring

/-- An alarm send on a free slot installs the payload and leaves the list alone. -/
theorem WF.send_alarm (c : AqCodes) {s : AlarmQueueStruct} {l : List (Ptr × Ptr)} (hw : WF s l)
    (msg : Ptr) (n : Ptr) (hmsg : msg ≠ NULL) (ha : s.hasAlarm = false) :
    aq_send c (some s) msg c.AQ_ALARM n
        = .ret 0 none
            (some { s with alarm_payload := msg, hasAlarm := true,
                           size := wrapInt (s.size + 1) }) ∧
      WF { s with alarm_payload := msg, hasAlarm := true, size := wrapInt (s.size + 1) } l := by
  refine ⟨by simp [aq_send, hmsg, ha], ?_⟩
  exact
    { list := hw.list, tail_eq := hw.tail_eq, nodup := hw.nodup, exact := hw.exact,
      count := by
        show wrapInt (s.size + 1) = wrapInt ((l.length : Int) + (if true = true then 1 else 0))
        rw [hw.count, wrapInt_add]
        unfold pending
        rw [ha]
        simp
      slot := fun h => absurd h (by simp), slot_set := fun _ => hmsg }

/-- While at most `INT_MAX` messages are pending, `size` is their number. -/
theorem WF.size_eq {s : AlarmQueueStruct} {l : List (Ptr × Ptr)} (hw : WF s l)
    (hb : pending s l ≤ INT_MAX) : s.size = pending s l := by
  rw [hw.count]
  exact wrapInt_of_range _ (pending_nonneg s l) hb

/-- While between 1 and `INT_MAX` messages are pending, `size` is not `0`. -/
theorem WF.size_ne_zero {s : AlarmQueueStruct} {l : List (Ptr × Ptr)} (hw : WF s l)
    (hb : pending s l ≤ INT_MAX) (hpos : 0 < pending s l) : s.size ≠ 0 := by
  rw [hw.size_eq hb]
  omega

/-- A non-zero `size` with the slot free means that the list is not empty. -/
theorem WF.ne_nil_of_size {s : AlarmQueueStruct} {l : List (Ptr × Ptr)} (hw : WF s l)
    (ha : s.hasAlarm = false) (hne : s.size ≠ 0) : l ≠ [] := by
  rintro rfl
  apply hne
  rw [hw.count]
  unfold pending
  rw [ha]
  simp [wrapInt_zero]

/-- A receive with the slot occupied drains the slot and leaves the list alone. -/
theorem WF.recv_alarm (c : AqCodes) {s : AlarmQueueStruct} {l : List (Ptr × Ptr)} (hw : WF s l)
    (msg : Ptr) (hmsg : msg ≠ NULL) (hne : s.size ≠ 0) (ha : s.hasAlarm = true) :
    aq_recv c (some s) msg
        = .ret c.AQ_ALARM (some s.alarm_payload)
            (some { s with alarm_payload := NULL, hasAlarm := false,
                           size := wrapInt (s.size - 1) }) ∧
      WF { s with alarm_payload := NULL, hasAlarm := false, size := wrapInt (s.size - 1) } l := by
  refine ⟨by simp [aq_recv, hmsg, hne, ha], ?_⟩
  exact
    { list := hw.list, tail_eq := hw.tail_eq, nodup := hw.nodup, exact := hw.exact,
      count := by
        show wrapInt (s.size - 1)
          = wrapInt ((l.length : Int) + (if false = true then 1 else 0))
        rw [hw.count, wrapInt_sub]
        unfold pending
        rw [ha]
        simp
      slot := fun _ => rfl, slot_set := fun h => absurd h (by simp) }

/-- A receive with the slot free and a non-empty list unlinks the first cell. -/
theorem WF.recv_normal (c : AqCodes) {s : AlarmQueueStruct} {a v : Ptr} {r : List (Ptr × Ptr)}
    (hw : WF s ((a, v) :: r)) (msg : Ptr) (hmsg : msg ≠ NULL) (hne : s.size ≠ 0)
    (ha : s.hasAlarm = false) :
    ∃ s1, aq_recv c (some s) msg = .ret c.AQ_NORMAL (some v) (some s1) ∧ WF s1 r ∧
      s1.hasAlarm = s.hasAlarm ∧ s1.alarm_payload = s.alarm_payload ∧
      s1.size = wrapInt (s.size - 1) := by
  have hhead : s.head = a := hw.list.1
  obtain ⟨ha0, hma, hr⟩ := hw.list.2
  have hd : deref s.mem s.head = some { payload := v, next := firstAddr r } := by
    unfold deref
    rw [hhead, if_neg ha0]
    exact hma
  have har : a ∉ r.map Prod.fst := (List.nodup_cons.mp hw.nodup).1
  refine ⟨{ s with
    head := firstAddr r
    tail := if firstAddr r = NULL then NULL else s.tail
    mem := Function.update s.mem s.head none
    size := wrapInt (s.size - 1) },
    by simp only [aq_recv, if_neg hmsg, if_neg hne, ha, Bool.false_eq_true, if_false, hd],
    ?_, rfl, rfl, rfl⟩
  refine
    { list := ⟨rfl, ?_⟩, tail_eq := ?_, nodup := (List.nodup_cons.mp hw.nodup).2,
      exact := ?_, count := ?_, slot := hw.slot, slot_set := hw.slot_set }
  · show Chain (Function.update s.mem s.head none) r
    rw [hhead]
    exact hr.update_of_not_mem a none har
  · show (if firstAddr r = NULL then NULL else s.tail) = lastAddr r
    cases r with
    | nil => simp [firstAddr, lastAddr]
    | cons y r =>
      obtain ⟨b, w⟩ := y
      have hb : b ≠ NULL := hr.1
      have : firstAddr ((b, w) :: r) = b := rfl
      rw [this, if_neg hb, hw.tail_eq, lastAddr_cons_cons]
  · intro p hp
    show Function.update s.mem s.head none p = none
    rw [hhead]
    by_cases hpa : p = a
    · rw [hpa, Function.update_same]
    · rw [Function.update_noteq hpa]
      exact hw.exact p (by simpa [hpa] using hp)
  · show wrapInt (s.size - 1) = wrapInt ((r.length : Int) + (if s.hasAlarm then 1 else 0))
    rw [hw.count, wrapInt_sub]
    unfold pending
    congr 1
    rw [List.length_cons]
    push_cast
    ring

/-- With the slot free and the list empty, `size` is `0`. -/
theorem WF.size_zero {s : AlarmQueueStruct} (hw : WF s []) (ha : s.hasAlarm = false) :
    s.size = 0 := by
  rw [hw.count]
  unfold pending
  rw [ha]
  simp [wrapInt_zero]

/-- The cells of the normal list are determined by the state. -/
theorem Chain.cells_unique {mem : Heap} {l l1 : List (Ptr × Ptr)} (hc : Chain mem l)
    (hc1 : Chain mem l1) (hf : firstAddr l = firstAddr l1) : l = l1 := by
  induction l generalizing l1 with
  | nil =>
    cases l1 with
    | nil => rfl
    | cons y r1 =>
      obtain ⟨b, w⟩ := y
      exact absurd hf.symm hc1.1
  | cons x r ih =>
    obtain ⟨a, v⟩ := x
    cases l1 with
    | nil => exact absurd hf hc.1
    | cons y r1 =>
      obtain ⟨b, w⟩ := y
      have hab : a = b := hf
      subst hab
      have h1 := hc.2.1
      rw [hc1.2.1] at h1
      have h2 := Option.some.inj h1
      have hv : w = v := congrArg MsgNode.payload h2
      have hn : firstAddr r1 = firstAddr r := congrArg MsgNode.next h2
      rw [hv, ih hc.2.2 hc1.2.2 hn.symm]

theorem NormalList.cells_determined {s : AlarmQueueStruct} {l l1 : List (Ptr × Ptr)}
    (h : NormalList s l) (h1 : NormalList s l1) : l = l1 :=
  Chain.cells_unique h.2 h1.2 (h.1.symm.trans h1.1)

/-- No call faults on a well-formed state, and the state it leads to is
well-formed. -/
theorem WF.preserved (c : AqCodes) {s : AlarmQueueStruct} {l : List (Ptr × Ptr)} (hw : WF s l)
    (op : Op) (hm : mallocOk s op) :
    ∃ s1 l1, (step c (some s) op).after = some s1 ∧ WF s1 l1 := by
  cases op with
  | size => exact ⟨s, l, rfl, hw⟩
  | alarms => exact ⟨s, l, rfl, hw⟩
  | send msg k n =>
    show ∃ s1 l1, (aq_send c (some s) msg k n).after = some s1 ∧ WF s1 l1
    by_cases hmsg : msg = NULL
    · exact ⟨s, l, by simp [aq_send, hmsg, Outcome.after], hw⟩
    by_cases hk : k = c.AQ_ALARM
    · subst hk
      by_cases ha : s.hasAlarm = true
      · exact ⟨s, l, by simp [aq_send, hmsg, ha, Outcome.after], hw⟩
      · have ha1 : s.hasAlarm = false := by simpa using ha
        obtain ⟨h1, h2⟩ := hw.send_alarm c msg n hmsg ha1
        exact ⟨_, l, by rw [h1]; rfl, h2⟩
    · by_cases hn : n = NULL
      · exact ⟨s, l, by simp [aq_send, hmsg, hk, hn, Outcome.after], hw⟩
      · have hfresh : s.mem n = none := hm.resolve_left hn
        obtain ⟨s1, h1, h2, _⟩ := hw.send_normal c msg k n hmsg hk hn hfresh
        exact ⟨s1, _, by rw [h1]; rfl, h2⟩
  | recv msg =>
    show ∃ s1 l1, (aq_recv c (some s) msg).after = some s1 ∧ WF s1 l1
    by_cases hmsg : msg = NULL
    · exact ⟨s, l, by simp [aq_recv, hmsg, Outcome.after], hw⟩
    by_cases h0 : s.size = 0
    · exact ⟨s, l, by simp [aq_recv, hmsg, h0, Outcome.after], hw⟩
    by_cases ha : s.hasAlarm = true
    · obtain ⟨h1, h2⟩ := hw.recv_alarm c msg hmsg h0 ha
      exact ⟨_, l, by rw [h1]; rfl, h2⟩
    · have ha1 : s.hasAlarm = false := by simpa using ha
      cases l with
      | nil => exact absurd rfl (hw.ne_nil_of_size ha1 h0)
      | cons x r =>
        obtain ⟨a, v⟩ := x
        obtain ⟨s1, h1, h2, _⟩ := hw.recv_normal c msg hmsg h0 ha1
        exact ⟨s1, r, by rw [h1]; rfl, h2⟩

/-- Every reachable state is well-formed. -/
theorem Reachable.wf {c : AqCodes} {s : AlarmQueueStruct} (hs : Reachable c s) :
    ∃ l, WF s l := by
  induction hs with
  | create q s h => exact ⟨[], WF.create q s h⟩
  | step s s1 op _ hm h ih =>
    obtain ⟨l, hw⟩ := ih
    obtain ⟨s2, l2, h2, hw2⟩ := hw.preserved c op hm
    rw [h] at h2
    cases Option.some.inj h2
    exact ⟨l2, hw2⟩

/-- In a reachable state, the cells of the normal list satisfy the
representation invariant. -/
theorem Reachable.wf_of_list {c : AqCodes} {s : AlarmQueueStruct} (hs : Reachable c s)
    {l : List (Ptr × Ptr)} (hl : NormalList s l) : WF s l := by
  obtain ⟨l1, hw⟩ := hs.wf
  rw [NormalList.cells_determined hl hw.list]
  exact hw

/-- The end of a trace from a reachable state is reachable. -/
theorem Reachable.run {c : AqCodes} {s : AlarmQueueStruct} (hs : Reachable c s) (ops : List Op)
    (hm : mallocOkAll c s ops) (s1 : AlarmQueueStruct) (h : (run c s ops).2 = some s1) :
    Reachable c s1 := by
  induction ops generalizing s with
  | nil =>
    cases Option.some.inj h
    exact hs
  | cons op ops ih =>
    obtain ⟨hm1, hm2⟩ := hm
    unfold AqTsafe.run at h
    cases hst : (AqTsafe.step c (some s) op).after with
    | none => rw [hst] at h; exact absurd h (by simp)
    | some s2 =>
      rw [hst] at h hm2
      exact ih (Reachable.step s s2 op hs hm1 hst) hm2 h

/-! ## Example states are reachable -/

theorem exEmpty_reachable : Reachable exCodes exEmpty :=
  Reachable.create 1 exEmpty rfl

theorem exOne_reachable : Reachable exCodes exOne :=
  Reachable.step exEmpty exOne (.send 5 0 10) exEmpty_reachable (Or.inr rfl) rfl

theorem exBoth_reachable : Reachable exCodes exBoth := by
  have h1 : Reachable exCodes
      { exEmpty with
        head := 10, tail := 10, size := 1
        mem := Function.update (fun _ => none) 10 (some { payload := 5, next := NULL }) } :=
    Reachable.step exEmpty _ (.send 5 0 10) exEmpty_reachable (Or.inr rfl) rfl
  exact Reachable.step _ exBoth (.send 7 1 0) h1 (Or.inl rfl) rfl

/-- The state `aq_create` builds has size 0 and no alarm. -/
theorem aq_create_fields (q : Ptr) (s : AlarmQueueStruct) (h : aq_create q = some s) :
    s.size = 0 ∧ s.hasAlarm = false := by
  unfold aq_create at h
  split at h
  · exact absurd h (by simp)
  · cases Option.some.inj h
    exact ⟨rfl, rfl⟩

/-! ## Traces -/

theorem run_cons_some (c : AqCodes) (s s1 : AlarmQueueStruct) (op : Op) (ops : List Op)
    (h : (step c (some s) op).after = some s1) :
    run c s (op :: ops) = (step c (some s) op :: (run c s1 ops).1, (run c s1 ops).2) := by
  show (match (AqTsafe.step c (some s) op).after with
    | some s1 => ((AqTsafe.step c (some s) op) :: (AqTsafe.run c s1 ops).1,
        (AqTsafe.run c s1 ops).2)
    | none => ([AqTsafe.step c (some s) op], none)) = _
  rw [h]

theorem run_append (c : AqCodes) (s : AlarmQueueStruct) (ops1 ops2 : List Op)
    (s1 : AlarmQueueStruct) (h : (run c s ops1).2 = some s1) :
    run c s (ops1 ++ ops2) = ((run c s ops1).1 ++ (run c s1 ops2).1, (run c s1 ops2).2) := by
  induction ops1 generalizing s with
  | nil =>
    cases Option.some.inj h
    rfl
  | cons op ops ih =>
    unfold AqTsafe.run at h
    cases hst : (AqTsafe.step c (some s) op).after with
    | none => rw [hst] at h; exact absurd h (by simp)
    | some s2 =>
      rw [hst] at h
      simp only at h
      rw [List.cons_append, run_cons_some c s s2 op _ hst, run_cons_some c s s2 op _ hst,
        ih s2 h]
      rfl

/-- Normal sends whose allocations succeed all return `0` and append their
cells in order. -/
theorem WF.run_sends (c : AqCodes) (k : Int) (hk : k ≠ c.AQ_ALARM) (cells : List (Ptr × Ptr))
    (hp : ∀ x ∈ cells, x.2 ≠ NULL) (hn : ∀ x ∈ cells, x.1 ≠ NULL)
    {s : AlarmQueueStruct} {l : List (Ptr × Ptr)} (hw : WF s l)
    (hm : mallocOkAll c s (sends k cells)) :
    ∃ s1, (run c s (sends k cells)).1.map Outcome.obs = cells.map (fun _ => (some 0, none)) ∧
      (run c s (sends k cells)).2 = some s1 ∧ WF s1 (l ++ cells) ∧
      s1.hasAlarm = s.hasAlarm ∧ s1.alarm_payload = s.alarm_payload := by
  induction cells generalizing s l with
  | nil => exact ⟨s, rfl, rfl, by simpa using hw, rfl, rfl⟩
  | cons x r ih =>
    obtain ⟨n, v⟩ := x
    have hv : v ≠ NULL := hp (n, v) (List.mem_cons_self _ _)
    have hn0 : n ≠ NULL := hn (n, v) (List.mem_cons_self _ _)
    obtain ⟨hm1, hm2⟩ := hm
    have hfresh : s.mem n = none := hm1.resolve_left hn0
    obtain ⟨s1, h1, hw1, ha1, hp1, _⟩ := hw.send_normal c v k n hv hk hn0 hfresh
    have hst : AqTsafe.step c (some s) (Op.send v k n) = .ret 0 none (some s1) := h1
    rw [hst] at hm2
    obtain ⟨s2, e1, e2, hw2, ha2, hp2⟩ :=
      ih (fun y hy => hp y (List.mem_cons_of_mem _ hy))
        (fun y hy => hn y (List.mem_cons_of_mem _ hy)) hw1 hm2
    refine ⟨s2, ?_, ?_, by simpa using hw2, ha2.trans ha1, hp2.trans hp1⟩
    · show (AqTsafe.run c s (Op.send v k n :: sends k r)).1.map Outcome.obs = _
      unfold AqTsafe.run
      rw [hst]
      simp only [Outcome.after, List.map_cons, e1]
      rfl
    · show (AqTsafe.run c s (Op.send v k n :: sends k r)).2 = _
      unfold AqTsafe.run
      rw [hst]
      exact e2

/-- With the slot free, as many receives as there are cells return the
payloads of the cells in order, and empty the list. -/
theorem WF.run_recvs (c : AqCodes) (out : Ptr) (hout : out ≠ NULL)
    {s : AlarmQueueStruct} {l : List (Ptr × Ptr)} (hw : WF s l) (ha : s.hasAlarm = false)
    (hb : (l.length : Int) ≤ INT_MAX) :
    ∃ s1, (run c s (List.replicate l.length (Op.recv out))).1.map Outcome.obs
        = l.map (fun x => (some c.AQ_NORMAL, some x.2)) ∧
      (run c s (List.replicate l.length (Op.recv out))).2 = some s1 ∧ WF s1 [] ∧
      s1.hasAlarm = false := by
  induction l generalizing s with
  | nil => exact ⟨s, rfl, rfl, hw, ha⟩
  | cons x r ih =>
    obtain ⟨a, v⟩ := x
    have hp : pending s ((a, v) :: r) = (r.length : Int) + 1 := by
      rw [pending_of_free s _ ha, List.length_cons]
      push_cast
      rfl
    rw [List.length_cons] at hb
    push_cast at hb
    have hne : s.size ≠ 0 := hw.size_ne_zero (by rw [hp]; exact hb) (by rw [hp]; omega)
    obtain ⟨s1, h1, hw1, ha1, _⟩ := hw.recv_normal c out hout hne ha
    have hst : AqTsafe.step c (some s) (Op.recv out) = .ret c.AQ_NORMAL (some v) (some s1) := h1
    obtain ⟨s2, e1, e2, hw2, ha2⟩ := ih hw1 (ha1.trans ha) (by omega)
    refine ⟨s2, ?_, ?_, hw2, ha2⟩
    · show (AqTsafe.run c s (Op.recv out :: List.replicate r.length (Op.recv out))).1.map
        Outcome.obs = _
      unfold AqTsafe.run
      rw [hst]
      simp only [Outcome.after, List.map_cons, e1]
      rfl
    · show (AqTsafe.run c s (Op.recv out :: List.replicate r.length (Op.recv out))).2 = _
      unfold AqTsafe.run
      rw [hst]
      exact e2

/-- A well-formed state with no cell and no alarm is the state of a new queue. -/
theorem WF.eq_empty {s : AlarmQueueStruct} (hw : WF s []) (ha : s.hasAlarm = false) :
    s = { head := NULL, tail := NULL, hasAlarm := false, alarm_payload := NULL, size := 0,
          mem := fun _ => none } := by
  have h1 : s.head = NULL := hw.list.1
  have h2 : s.tail = NULL := hw.tail_eq
  have h3 := hw.size_zero ha
  have h4 := hw.slot ha
  have h5 : s.mem = fun _ => none := funext fun p => hw.exact p (by simp)
  cases s
  simp only at h1 h2 h3 h4 h5 ha
  subst h1 h2 h3 h4 h5 ha
  rfl

/-! ## The claims -/

/-- C1 (counter invariant): the queue `aq_create` returns has size 0, no alarm
and an empty normal list; in every reachable state holding at most `INT_MAX`
messages, `size` is the number of nodes of the normal list plus one when the
alarm slot is occupied, hence not negative; every call (`aq_send`,
`aq_recv`, `aq_size`, `aq_alarms`, returning or suspended) made in a
reachable state ends without a fault in a state with the same property; and
in every reachable state, however many messages it holds, `size` is this
number as an `int` (modulo `2 ^ 32`). -/
theorem C1_counter_invariant (c : AqCodes) :
    (∀ q s, aq_create q = some s → s.size = 0 ∧ s.hasAlarm = false ∧ NormalList s []) ∧
    (∀ s l, Reachable c s → NormalList s l → pending s l ≤ INT_MAX →
      s.size = (l.length : Int) + (if s.hasAlarm then 1 else 0) ∧ 0 ≤ s.size) ∧
    (∀ s op, Reachable c s → mallocOk s op →
      ∃ s1 l1, (step c (some s) op).after = some s1 ∧ NormalList s1 l1 ∧
        (pending s1 l1 ≤ INT_MAX →
          s1.size = (l1.length : Int) + (if s1.hasAlarm then 1 else 0) ∧ 0 ≤ s1.size)) ∧
    (∀ s, Reachable c s → ∃ l, NormalList s l ∧ s.size = wrapInt (pending s l)) := by
  have key : ∀ s l, WF s l → pending s l ≤ INT_MAX →
      s.size = (l.length : Int) + (if s.hasAlarm then 1 else 0) ∧ 0 ≤ s.size := by
    intro s l hw hb
    have h := hw.size_eq hb
    exact ⟨h, h ▸ pending_nonneg s l⟩
  refine ⟨?_, ?_, ?_, ?_⟩
  · intro q s h
    have hw := WF.create q s h
    unfold aq_create at h
    split at h
    · exact absurd h (by simp)
    · cases Option.some.inj h
      exact ⟨rfl, rfl, hw.list⟩
  · intro s l hs hl hb
    obtain ⟨l1, hw⟩ := hs.wf
    rw [← NormalList.cells_determined hl hw.list] at hw
    exact key s l hw hb
  · intro s op hs hm
    obtain ⟨l, hw⟩ := hs.wf
    obtain ⟨s1, l1, h1, hw1⟩ := hw.preserved c op hm
    exact ⟨s1, l1, h1, hw1.list, key s1 l1 hw1⟩
  · intro s hs
    obtain ⟨l, hw⟩ := hs.wf
    exact ⟨l, hw.list, hw.count⟩

/-- Witness of C1 on the state holding one normal message and an alarm. -/
theorem C1_counter_invariant_witness :
    exBoth.size = (([(10, 5)] : List (Ptr × Ptr)).length : Int)
        + (if exBoth.hasAlarm then 1 else 0) ∧ 0 ≤ exBoth.size :=
  (C1_counter_invariant exCodes).2.1 exBoth [(10, 5)] exBoth_reachable
    ⟨rfl, by decide, rfl, trivial⟩ (by decide)

/-- C2 (alarm priority): in every reachable state whose alarm slot is
occupied, whatever the normal list holds (the alarm and the nodes being at
most `INT_MAX` messages), `aq_recv` with a non-null output location returns
`AQ_ALARM`, stores the alarm payload, clears the slot, decrements `size` by
one and leaves `head`, `tail` and the nodes untouched; and, the codes
`AQ_ALARM` and `AQ_NO_MSG` being different from `AQ_NORMAL`, no `aq_recv` in
a state whose slot is occupied returns `AQ_NORMAL`. -/
theorem C2_alarm_priority (c : AqCodes) (s : AlarmQueueStruct) (hs : Reachable c s)
    (ha : s.hasAlarm = true) :
    (∀ l, NormalList s l → (l.length : Int) + 1 ≤ INT_MAX → ∀ msg, msg ≠ NULL →
      aq_recv c (some s) msg
        = .ret c.AQ_ALARM (some s.alarm_payload)
            (some { s with alarm_payload := NULL, hasAlarm := false, size := s.size - 1 })) ∧
    (c.AQ_ALARM ≠ c.AQ_NORMAL → c.AQ_NO_MSG ≠ c.AQ_NORMAL →
      ∀ msg, (aq_recv c (some s) msg).code ≠ some c.AQ_NORMAL) := by
  refine ⟨?_, ?_⟩
  · intro l hl hb msg hmsg
    have hw := hs.wf_of_list hl
    have hp := pending_of_alarm s l ha
    have hsz : s.size = (l.length : Int) + 1 := by
      rw [hw.size_eq (by rw [hp]; exact hb), hp]
    have hne : s.size ≠ 0 := by omega
    rw [(hw.recv_alarm c msg hmsg hne ha).1]
    have hwrap : wrapInt (s.size - 1) = s.size - 1 :=
      wrapInt_of_range _ (by omega) (by omega)
    rw [hwrap]
  · intro h1 h2 msg
    unfold aq_recv
    simp only [ha, if_true]
    split_ifs <;> simp [Outcome.code, h1, h2]

/-- Witness of C2 on the state holding one normal message and an alarm. -/
theorem C2_alarm_priority_witness :
    Reachable exCodes exBoth ∧ exBoth.hasAlarm = true ∧
    (∀ l, NormalList exBoth l → (l.length : Int) + 1 ≤ INT_MAX → ∀ msg, msg ≠ NULL →
      aq_recv exCodes (some exBoth) msg
        = .ret exCodes.AQ_ALARM (some exBoth.alarm_payload)
            (some { exBoth with alarm_payload := NULL, hasAlarm := false,
                                size := exBoth.size - 1 })) ∧
    (exCodes.AQ_ALARM ≠ exCodes.AQ_NORMAL → exCodes.AQ_NO_MSG ≠ exCodes.AQ_NORMAL →
      ∀ msg, (aq_recv exCodes (some exBoth) msg).code ≠ some exCodes.AQ_NORMAL) :=
  ⟨exBoth_reachable, rfl, C2_alarm_priority exCodes exBoth exBoth_reachable rfl⟩

/-- C3 (FIFO): on a new queue, `N` normal sends of non-null payloads
`m1..mN` (`N` at most `INT_MAX`) whose allocations succeed all return `0`;
the `N` receives that
follow (no alarm is sent) return `AQ_NORMAL` with `m1`, ..., `mN` in this
order, and the queue is then again in the state of a new queue (empty list,
size 0, no alarm). -/
theorem C3_fifo (c : AqCodes) (hd : c.AQ_NORMAL ≠ c.AQ_ALARM) (q : Ptr) (s0 : AlarmQueueStruct)
    (h0 : aq_create q = some s0) (cells : List (Ptr × Ptr))
    (hp : ∀ x ∈ cells, x.2 ≠ NULL) (hn : ∀ x ∈ cells, x.1 ≠ NULL)
    (hlen : (cells.length : Int) ≤ INT_MAX)
    (hm : mallocOkAll c s0 (sends c.AQ_NORMAL cells)) (out : Ptr) (hout : out ≠ NULL) :
    (run c s0 (sends c.AQ_NORMAL cells ++ List.replicate cells.length (Op.recv out))).1.map
        Outcome.obs
      = cells.map (fun _ => (some 0, none))
          ++ cells.map (fun x => (some c.AQ_NORMAL, some x.2)) ∧
    (run c s0 (sends c.AQ_NORMAL cells ++ List.replicate cells.length (Op.recv out))).2
      = some s0 := by
  have hw0 := WF.create q s0 h0
  have ha0 : s0.hasAlarm = false := ((aq_create_fields q s0 h0)).2
  obtain ⟨s1, e1, e2, hw1, ha1, _⟩ := hw0.run_sends c c.AQ_NORMAL hd cells hp hn hm
  rw [List.nil_append] at hw1
  obtain ⟨s2, f1, f2, hw2, ha2⟩ := hw1.run_recvs c out hout (ha1.trans ha0) hlen
  rw [run_append c s0 _ _ s1 e2]
  refine ⟨?_, ?_⟩
  · simp only [List.map_append, e1, f1]
  · show (AqTsafe.run c s1 _).2 = some s0
    rw [f2, hw2.eq_empty ha2, hw0.eq_empty ha0]

/-- Witness of C3 with payloads `5`, `6` in nodes `10`, `11`. -/
theorem C3_fifo_witness :
    (run exCodes exEmpty
        (sends exCodes.AQ_NORMAL [(10, 5), (11, 6)] ++ List.replicate 2 (Op.recv 1))).1.map
        Outcome.obs
      = [(some 0, none), (some 0, none), (some 0, some 5), (some 0, some 6)] ∧
    (run exCodes exEmpty
        (sends exCodes.AQ_NORMAL [(10, 5), (11, 6)] ++ List.replicate 2 (Op.recv 1))).2
      = some exEmpty :=
  C3_fifo exCodes (by decide) 1 exEmpty rfl [(10, 5), (11, 6)] (by decide) (by decide)
    (by decide) ⟨Or.inr rfl, Or.inr rfl, trivial⟩ 1 (by decide)

/-- In a well-formed state of size 0 holding at most `INT_MAX` messages, the
list is empty and the slot is free. -/
theorem WF.of_size_zero {s : AlarmQueueStruct} {l : List (Ptr × Ptr)} (hw : WF s l)
    (hb : pending s l ≤ INT_MAX) (h0 : s.size = 0) : l = [] ∧ s.hasAlarm = false := by
  have hc := hw.size_eq hb
  rw [h0] at hc
  cases ha : s.hasAlarm with
  | true =>
    rw [pending_of_alarm s l ha] at hc
    omega
  | false =>
    rw [pending_of_free s l ha] at hc
    refine ⟨List.length_eq_zero.mp ?_, rfl⟩
    omega

/-- C4 (round trip by identity): on an empty queue (a reachable state with an
empty normal list and a free alarm slot) and for a non-null payload `p`, an
alarm send returns `0` and the receive that follows returns `AQ_ALARM` and
stores exactly `p`; a normal send whose node allocation succeeded returns
`0` and the receive that follows returns `AQ_NORMAL` and stores exactly `p`.
In both cases the queue is afterwards in the state it started from. -/
theorem C4_round_trip (c : AqCodes) (s : AlarmQueueStruct) (hs : Reachable c s)
    (he : NormalList s []) (ha : s.hasAlarm = false) (p : Ptr) (hp : p ≠ NULL) (out : Ptr)
    (hout : out ≠ NULL) :
    (∀ n, ∃ s1, aq_send c (some s) p c.AQ_ALARM n = .ret 0 none (some s1) ∧
      aq_recv c (some s1) out = .ret c.AQ_ALARM (some p) (some s)) ∧
    (c.AQ_NORMAL ≠ c.AQ_ALARM → ∀ n, n ≠ NULL → s.mem n = none →
      ∃ s1, aq_send c (some s) p c.AQ_NORMAL n = .ret 0 none (some s1) ∧
        aq_recv c (some s1) out = .ret c.AQ_NORMAL (some p) (some s)) := by
  have hw := hs.wf_of_list he
  have hs0 := hw.eq_empty ha
  have hz := hw.size_zero ha
  have hone : wrapInt (s.size + 1) ≠ 0 := by
    rw [hz]
    decide
  refine ⟨?_, ?_⟩
  · intro n
    obtain ⟨h1, hw1⟩ := hw.send_alarm c p n hp ha
    refine ⟨_, h1, ?_⟩
    rw [(hw1.recv_alarm c out hout hone rfl).1]
    congr 2
    rw [hs0]
    simp [wrapInt_sub, wrapInt_zero]
  · intro hd n hn hfresh
    obtain ⟨s1, h1, hw1, ha1, _, hz1⟩ := hw.send_normal c p c.AQ_NORMAL n hp hd hn hfresh
    rw [List.nil_append] at hw1
    obtain ⟨s2, h2, hw2, ha2, _⟩ :=
      hw1.recv_normal c out hout (by rw [hz1]; exact hone) (ha1.trans ha)
    refine ⟨s1, h1, ?_⟩
    rw [h2, hw2.eq_empty (ha2.trans (ha1.trans ha)), ← hs0]

/-- Witness of C4 on a new queue, payload `5`, node `10`. -/
theorem C4_round_trip_witness :
    (∀ n, ∃ s1, aq_send exCodes (some exEmpty) 5 exCodes.AQ_ALARM n = .ret 0 none (some s1) ∧
      aq_recv exCodes (some s1) 1 = .ret exCodes.AQ_ALARM (some 5) (some exEmpty)) ∧
    (exCodes.AQ_NORMAL ≠ exCodes.AQ_ALARM → ∀ n, n ≠ NULL → exEmpty.mem n = none →
      ∃ s1, aq_send exCodes (some exEmpty) 5 exCodes.AQ_NORMAL n = .ret 0 none (some s1) ∧
        aq_recv exCodes (some s1) 1 = .ret exCodes.AQ_NORMAL (some 5) (some exEmpty)) :=
  C4_round_trip exCodes exEmpty exEmpty_reachable ⟨rfl, trivial⟩ rfl 5 (by decide) 1
    (by decide)

/-- C5 (`aq_send` validation): on the `NULL` handle `aq_send` returns
`AQ_UNINIT` whatever the payload and kind; on a valid handle with a `NULL`
payload it returns `AQ_NULL_MSG` for every kind; in both cases the call
returns (it is not suspended), stores nothing and the queue is unchanged. -/
theorem C5_send_validation (c : AqCodes) :
    (∀ msg k n, aq_send c none msg k n = .ret c.AQ_UNINIT none none) ∧
    (∀ s k n, aq_send c (some s) NULL k n = .ret c.AQ_NULL_MSG none (some s)) :=
  ⟨fun _ _ _ => rfl, fun _ _ _ => rfl⟩

/-- C6 (`aq_recv` error handling): on the `NULL` handle `aq_recv` returns
`AQ_UNINIT`; on a valid handle with a `NULL` output location it returns
`AQ_NO_MSG` at once, whether the queue is empty or not, stores nothing,
removes no message and leaves the queue unchanged. -/
theorem C6_recv_validation (c : AqCodes) :
    (∀ msg, aq_recv c none msg = .ret c.AQ_UNINIT none none) ∧
    (∀ s, aq_recv c (some s) NULL = .ret c.AQ_NO_MSG none (some s)) :=
  ⟨fun _ => rfl, fun _ => rfl⟩

/-- C7 (single alarm slot): (1) an alarm send on a queue whose slot is
occupied leaves the queue unchanged (pending payload and `size` included),
and with a non-null payload, the only one `aq_send` accepts, it is
suspended;
(2) an `aq_send` that changes the slot was an alarm send made with the slot
free, and it installed its own non-null payload; (3) while the slot is
occupied, any call either leaves the slot occupied with the same payload, or
is the `aq_recv` that returns `AQ_ALARM` with this payload; (4) in every
reachable state the alarm payload is `NULL` when the slot is free, and,
while at most `INT_MAX` messages are pending, `size` counts at most one
message besides the nodes of the normal list, and none when the slot is
free. -/
theorem C7_single_alarm_slot (c : AqCodes) :
    (∀ s msg n, s.hasAlarm = true →
      (aq_send c (some s) msg c.AQ_ALARM n).after = some s ∧
      (msg ≠ NULL → aq_send c (some s) msg c.AQ_ALARM n = .wait (some s))) ∧
    (∀ s msg k n s1, (aq_send c (some s) msg k n).after = some s1 →
      (s1.hasAlarm ≠ s.hasAlarm ∨ s1.alarm_payload ≠ s.alarm_payload) →
      s.hasAlarm = false ∧ k = c.AQ_ALARM ∧ msg ≠ NULL ∧
        s1.hasAlarm = true ∧ s1.alarm_payload = msg) ∧
    (∀ s op s1, s.hasAlarm = true → (step c (some s) op).after = some s1 →
      (s1.hasAlarm = true ∧ s1.alarm_payload = s.alarm_payload) ∨
      ∃ msg, op = .recv msg ∧
        step c (some s) op = .ret c.AQ_ALARM (some s.alarm_payload) (some s1)) ∧
    (∀ s, Reachable c s →
      ∃ l, NormalList s l ∧ (s.hasAlarm = false → s.alarm_payload = NULL) ∧
        (pending s l ≤ INT_MAX →
          s.size - (l.length : Int) ≤ 1 ∧
          (s.hasAlarm = false → s.size - (l.length : Int) = 0))) := by
  have send_frame : ∀ s msg k n s1, (aq_send c (some s) msg k n).after = some s1 →
      (s1.hasAlarm = s.hasAlarm ∧ s1.alarm_payload = s.alarm_payload) ∨
      (s.hasAlarm = false ∧ k = c.AQ_ALARM ∧ msg ≠ NULL ∧
        s1.hasAlarm = true ∧ s1.alarm_payload = msg) := by
    intro s msg k n s1 h
    unfold aq_send at h
    simp only at h
    split_ifs at h with h1 h2 h3 h4 h5
    · cases Option.some.inj h; exact Or.inl ⟨rfl, rfl⟩
    · cases Option.some.inj h; exact Or.inl ⟨rfl, rfl⟩
    · cases Option.some.inj h
      exact Or.inr ⟨by simpa using h3, h2, h1, rfl, rfl⟩
    · cases Option.some.inj h; exact Or.inl ⟨rfl, rfl⟩
    · split at h
      · exact absurd h (by simp [Outcome.after])
      · cases Option.some.inj h; exact Or.inl ⟨rfl, rfl⟩
    · cases Option.some.inj h; exact Or.inl ⟨rfl, rfl⟩
  refine ⟨?_, ?_, ?_, ?_⟩
  · intro s msg n ha
    refine ⟨?_, fun hmsg => by simp [aq_send, hmsg, ha]⟩
    by_cases hmsg : msg = NULL
    · simp [aq_send, hmsg, Outcome.after]
    · simp [aq_send, hmsg, ha, Outcome.after]
  · intro s msg k n s1 h hch
    rcases send_frame s msg k n s1 h with ⟨e1, e2⟩ | h2
    · rcases hch with hch | hch
      · exact absurd e1 hch
      · exact absurd e2 hch
    · exact h2
  · intro s op s1 ha h
    cases op with
    | size => cases Option.some.inj h; exact Or.inl ⟨ha, rfl⟩
    | alarms => cases Option.some.inj h; exact Or.inl ⟨ha, rfl⟩
    | send msg k n =>
      rcases send_frame s msg k n s1 h with ⟨e1, e2⟩ | h2
      · exact Or.inl ⟨e1.trans ha, e2⟩
      · rw [ha] at h2
        exact absurd h2.1 (by simp)
    | recv msg =>
      have h2 : (aq_recv c (some s) msg).after = some s1 := h
      show _ ∨ ∃ m, Op.recv msg = Op.recv m ∧ aq_recv c (some s) msg = _
      unfold aq_recv at h2 ⊢
      simp only [ha, if_true] at h2 ⊢
      split_ifs at h2 ⊢ with h3 h4
      · cases Option.some.inj h2; exact Or.inl ⟨ha, rfl⟩
      · cases Option.some.inj h2; exact Or.inl ⟨ha, rfl⟩
      · cases Option.some.inj h2
        exact Or.inr ⟨msg, rfl, rfl⟩
  · intro s hs
    obtain ⟨l, hw⟩ := hs.wf
    refine ⟨l, hw.list, hw.slot, ?_⟩
    intro hb
    rw [hw.size_eq hb]
    refine ⟨?_, ?_⟩
    · unfold pending
      split <;> omega
    · intro ha
      rw [pending_of_free s l ha]
      omega

/-- Witness of C7: an alarm send on the state that already holds an alarm. -/
theorem C7_single_alarm_slot_witness :
    aq_send exCodes (some exBoth) 9 exCodes.AQ_ALARM 0 = .wait (some exBoth) :=
  ((C7_single_alarm_slot exCodes).1 exBoth 9 0 rfl).2 (by decide)

/-! ## The effect of one call on `size` and on the slot -/

/-- What a call made in a well-formed state does to `size`, to `hasAlarm` and
to the number of pending messages, read off its return code. -/
theorem WF.step_effect (c : AqCodes) {s : AlarmQueueStruct} {l : List (Ptr × Ptr)}
    (hw : WF s l) (op : Op) (hm : mallocOk s op) :
    ∃ s1 l1, (step c (some s) op).after = some s1 ∧ WF s1 l1 ∧
      ((s1 = s ∧ l1 = l ∧
          ((step c (some s) op).code = none ∨
            (∃ k n, op = .send NULL k n ∧ (step c (some s) op).code = some c.AQ_NULL_MSG) ∨
            (∃ msg k, op = .send msg k NULL ∧ k ≠ c.AQ_ALARM ∧
              (step c (some s) op).code = some c.AQ_NO_ROOM) ∨
            (op = .recv NULL ∧ (step c (some s) op).code = some c.AQ_NO_MSG) ∨
            op = .size ∨ op = .alarms)) ∨
       (∃ msg k n, op = .send msg k n ∧ msg ≠ NULL ∧ (step c (some s) op).code = some 0 ∧
          s1.size = wrapInt (s.size + 1) ∧
          s1.hasAlarm = (s.hasAlarm || decide (k = c.AQ_ALARM)) ∧
          pending s1 l1 = pending s l + 1) ∨
       (∃ msg, op = .recv msg ∧ msg ≠ NULL ∧
          (step c (some s) op).code = some (if s.hasAlarm then c.AQ_ALARM else c.AQ_NORMAL) ∧
          s1.size = wrapInt (s.size - 1) ∧ s1.hasAlarm = false ∧
          pending s1 l1 = pending s l - 1)) := by
  cases op with
  | size =>
    exact ⟨s, l, rfl, hw, Or.inl ⟨rfl, rfl, Or.inr (Or.inr (Or.inr (Or.inr (Or.inl rfl))))⟩⟩
  | alarms =>
    exact ⟨s, l, rfl, hw, Or.inl ⟨rfl, rfl, Or.inr (Or.inr (Or.inr (Or.inr (Or.inr rfl))))⟩⟩
  | send msg k n =>
    by_cases hmsg : msg = NULL
    · subst hmsg
      exact ⟨s, l, rfl, hw, Or.inl ⟨rfl, rfl, Or.inr (Or.inl ⟨k, n, rfl, rfl⟩)⟩⟩
    by_cases hk : k = c.AQ_ALARM
    · subst hk
      by_cases ha : s.hasAlarm = true
      · have h1 : AqTsafe.step c (some s) (.send msg c.AQ_ALARM n) = .wait (some s) := by
          simp [AqTsafe.step, aq_send, hmsg, ha]
        exact ⟨s, l, by rw [h1]; rfl, hw, Or.inl ⟨rfl, rfl, Or.inl (by rw [h1]; rfl)⟩⟩
      · have ha1 : s.hasAlarm = false := by simpa using ha
        obtain ⟨h1, h2⟩ := hw.send_alarm c msg n hmsg ha1
        have h3 : AqTsafe.step c (some s) (.send msg c.AQ_ALARM n) = _ := h1
        refine ⟨_, l, by rw [h3]; rfl, h2,
          Or.inr (Or.inl ⟨msg, _, n, rfl, hmsg, ?_, rfl, ?_, ?_⟩)⟩
        · rw [h3]; rfl
        · simp
        · rw [pending_of_alarm _ l rfl, pending_of_free s l ha1]
    · by_cases hn : n = NULL
      · subst hn
        have h1 : AqTsafe.step c (some s) (.send msg k NULL)
            = .ret c.AQ_NO_ROOM none (some s) := by
          simp [AqTsafe.step, aq_send, hmsg, hk]
        exact ⟨s, l, by rw [h1]; rfl, hw,
          Or.inl ⟨rfl, rfl, Or.inr (Or.inr (Or.inl ⟨msg, k, rfl, hk, by rw [h1]; rfl⟩))⟩⟩
      · have hfresh : s.mem n = none := hm.resolve_left hn
        obtain ⟨s1, h1, h2, e1, _, e3⟩ := hw.send_normal c msg k n hmsg hk hn hfresh
        have h3 : AqTsafe.step c (some s) (.send msg k n) = _ := h1
        refine ⟨s1, _, by rw [h3]; rfl, h2,
          Or.inr (Or.inl ⟨msg, k, n, rfl, hmsg, ?_, e3, ?_, ?_⟩)⟩
        · rw [h3]; rfl
        · rw [e1]; simp [hk]
        · unfold pending
          rw [e1, List.length_append, List.length_singleton]
          push_cast
          ring
  | recv msg =>
    by_cases hmsg : msg = NULL
    · subst hmsg
      exact ⟨s, l, rfl, hw, Or.inl ⟨rfl, rfl, Or.inr (Or.inr (Or.inr (Or.inl ⟨rfl, rfl⟩)))⟩⟩
    by_cases h0 : s.size = 0
    · have h1 : AqTsafe.step c (some s) (.recv msg) = .wait (some s) := by
        simp [AqTsafe.step, aq_recv, hmsg, h0]
      exact ⟨s, l, by rw [h1]; rfl, hw, Or.inl ⟨rfl, rfl, Or.inl (by rw [h1]; rfl)⟩⟩
    by_cases ha : s.hasAlarm = true
    · obtain ⟨h1, h2⟩ := hw.recv_alarm c msg hmsg h0 ha
      have h3 : AqTsafe.step c (some s) (.recv msg) = _ := h1
      refine ⟨_, l, by rw [h3]; rfl, h2, Or.inr (Or.inr ⟨msg, rfl, hmsg, ?_, rfl, rfl, ?_⟩)⟩
      · rw [h3, ha]; rfl
      · rw [pending_of_free _ l rfl, pending_of_alarm s l ha]
        ring
    · have ha1 : s.hasAlarm = false := by simpa using ha
      cases l with
      | nil => exact absurd rfl (hw.ne_nil_of_size ha1 h0)
      | cons x r =>
        obtain ⟨a, v⟩ := x
        obtain ⟨s1, h1, h2, e1, _, e3⟩ := hw.recv_normal c msg hmsg h0 ha1
        have h3 : AqTsafe.step c (some s) (.recv msg) = _ := h1
        refine ⟨s1, r, by rw [h3]; rfl, h2,
          Or.inr (Or.inr ⟨msg, rfl, hmsg, ?_, e3, e1.trans ha1, ?_⟩)⟩
        · rw [h3, ha1]; rfl
        · rw [pending_of_free s1 r (e1.trans ha1), pending_of_free s _ ha1, List.length_cons]
          push_cast
          ring

theorem events_cons (c : AqCodes) (s s1 : AlarmQueueStruct) (op : Op) (ops : List Op)
    (h : (step c (some s) op).after = some s1) :
    events c s (op :: ops) = (op, step c (some s) op) :: events c s1 ops := by
  unfold events
  rw [run_cons_some c s s1 op ops h]
  rfl

/-- One call changes `size`, as an `int`, and the number of pending messages
by what its return code says; a call that neither returned `0` from
`aq_send` nor delivered a message leaves the state as it was. -/
theorem WF.step_size (c : AqCodes) (h1 : c.AQ_NULL_MSG ≠ 0) (h2 : c.AQ_NO_ROOM ≠ 0)
    (h3 : c.AQ_NO_MSG ≠ c.AQ_ALARM) (h4 : c.AQ_NO_MSG ≠ c.AQ_NORMAL)
    {s : AlarmQueueStruct} {l : List (Ptr × Ptr)} (hw : WF s l) (op : Op) (hm : mallocOk s op) :
    ∃ s1 l1, (step c (some s) op).after = some s1 ∧ WF s1 l1 ∧
      s1.size = wrapInt (s.size + (if sendReturned0 (op, step c (some s) op) then 1 else 0)
        - (if recvDelivered c (op, step c (some s) op) then 1 else 0)) ∧
      pending s1 l1 = pending s l + (if sendReturned0 (op, step c (some s) op) then 1 else 0)
        - (if recvDelivered c (op, step c (some s) op) then 1 else 0) ∧
      (sendReturned0 (op, step c (some s) op) = false →
        recvDelivered c (op, step c (some s) op) = false → s1 = s) := by
  obtain ⟨s1, l1, e1, hw1, hcase⟩ := hw.step_effect c op hm
  refine ⟨s1, l1, e1, hw1, ?_⟩
  have hself : s.size = wrapInt s.size := by
    rw [hw.count, wrapInt_idem]
  rcases hcase with ⟨rfl, rfl, hc⟩ | ⟨msg, k, n, rfl, _, hc, hsz, _, hp⟩ |
    ⟨msg, rfl, _, hc, hsz, _, hp⟩
  · have hfs : sendReturned0 (op, AqTsafe.step c (some s1) op) = false ∧
        recvDelivered c (op, AqTsafe.step c (some s1) op) = false := by
      rcases hc with hc | ⟨k, n, rfl, hc⟩ | ⟨msg, k, rfl, _, hc⟩ | ⟨rfl, hc⟩ | rfl | rfl
      · cases op <;> simp [sendReturned0, recvDelivered, hc]
      · simp [sendReturned0, recvDelivered, hc, h1]
      · simp [sendReturned0, recvDelivered, hc, h2]
      · simp [sendReturned0, recvDelivered, hc, h3, h4]
      · simp [sendReturned0, recvDelivered]
      · simp [sendReturned0, recvDelivered]
    rw [hfs.1, hfs.2]
    refine ⟨?_, ?_, fun _ _ => rfl⟩
    · simpa using hself
    · simp
  · have hs1 : sendReturned0 (Op.send msg k n, AqTsafe.step c (some s) (Op.send msg k n))
        = true := by
      simp [sendReturned0, hc]
    have hr1 : recvDelivered c (Op.send msg k n, AqTsafe.step c (some s) (Op.send msg k n))
        = false := by
      simp [recvDelivered]
    rw [hs1, hr1]
    refine ⟨?_, ?_, fun h _ => absurd h (by simp)⟩
    · simpa using hsz
    · simpa using hp
  · have hs1 : sendReturned0 (Op.recv msg, AqTsafe.step c (some s) (Op.recv msg)) = false := by
      simp [sendReturned0]
    have hr1 : recvDelivered c (Op.recv msg, AqTsafe.step c (some s) (Op.recv msg))
        = true := by
      cases hb : s.hasAlarm <;> simp [recvDelivered, hc, hb]
    rw [hs1, hr1]
    refine ⟨?_, ?_, fun _ h => absurd h (by simp)⟩
    · simpa using hsz
    · simpa using hp

/-- One call changes the slot flag by what its kind and return code say. -/
theorem WF.step_slot (c : AqCodes) (h1 : c.AQ_NULL_MSG ≠ 0) (h2 : c.AQ_NO_MSG ≠ c.AQ_ALARM)
    (h3 : c.AQ_NORMAL ≠ c.AQ_ALARM)
    {s : AlarmQueueStruct} {l : List (Ptr × Ptr)} (hw : WF s l) (op : Op) (hm : mallocOk s op) :
    ∃ s1 l1, (step c (some s) op).after = some s1 ∧ WF s1 l1 ∧
      s1.hasAlarm = (if alarmSent c (op, step c (some s) op) then true
        else if alarmReceived c (op, step c (some s) op) then false else s.hasAlarm) := by
  obtain ⟨s1, l1, e1, hw1, hcase⟩ := hw.step_effect c op hm
  refine ⟨s1, l1, e1, hw1, ?_⟩
  rcases hcase with ⟨rfl, _, hc⟩ | ⟨msg, k, n, rfl, _, hc, _, hf, _⟩ |
    ⟨msg, rfl, _, hc, _, hf, _⟩
  · rcases hc with hc | ⟨k, n, rfl, hc⟩ | ⟨msg, k, rfl, hk, hc⟩ | ⟨rfl, hc⟩ | rfl | rfl
    · cases op <;> simp [alarmSent, alarmReceived, hc]
    · simp [alarmSent, alarmReceived, hc, h1]
    · simp [alarmSent, alarmReceived, hk]
    · simp [alarmSent, alarmReceived, hc, h2]
    · simp [alarmSent, alarmReceived]
    · simp [alarmSent, alarmReceived]
  · rw [hf]
    by_cases hk : k = c.AQ_ALARM
    · subst hk
      simp [alarmSent, hc]
    · simp [alarmSent, alarmReceived, hk]
  · rw [hf]
    cases hb : s.hasAlarm <;> simp [alarmSent, alarmReceived, hc, hb, h3]

/-- Along a trace, the number of pending messages grows by the number of
sends that returned `0` and shrinks by the number of receives that delivered
a message, and `size` follows as an `int`. -/
theorem WF.run_size (c : AqCodes) (h1 : c.AQ_NULL_MSG ≠ 0) (h2 : c.AQ_NO_ROOM ≠ 0)
    (h3 : c.AQ_NO_MSG ≠ c.AQ_ALARM) (h4 : c.AQ_NO_MSG ≠ c.AQ_NORMAL) (ops : List Op)
    {s : AlarmQueueStruct} {l : List (Ptr × Ptr)} (hw : WF s l) (hm : mallocOkAll c s ops) :
    ∃ s1 l1, (run c s ops).2 = some s1 ∧ WF s1 l1 ∧
      pending s1 l1 = pending s l + ((events c s ops).countP sendReturned0 : Int)
        - ((events c s ops).countP (recvDelivered c) : Int) := by
  induction ops generalizing s l with
  | nil => exact ⟨s, l, rfl, hw, by simp [events]⟩
  | cons op ops ih =>
    obtain ⟨hm1, hm2⟩ := hm
    obtain ⟨s1, l1, e1, hw1, _, hp, _⟩ := hw.step_size c h1 h2 h3 h4 op hm1
    rw [e1] at hm2
    obtain ⟨s2, l2, f1, hw2, f2⟩ := ih hw1 hm2
    refine ⟨s2, l2, ?_, hw2, ?_⟩
    · rw [run_cons_some c s s1 op ops e1]
      exact f1
    · rw [events_cons c s s1 op ops e1, List.countP_cons, List.countP_cons, f2, hp]
      push_cast
      ring

/-- Along a trace, the slot flag follows the alarm sends and alarm receives. -/
theorem WF.run_slot (c : AqCodes) (h1 : c.AQ_NULL_MSG ≠ 0) (h2 : c.AQ_NO_MSG ≠ c.AQ_ALARM)
    (h3 : c.AQ_NORMAL ≠ c.AQ_ALARM) (ops : List Op)
    {s : AlarmQueueStruct} {l : List (Ptr × Ptr)} (hw : WF s l) (hm : mallocOkAll c s ops) :
    ∃ s1, (run c s ops).2 = some s1 ∧
      s1.hasAlarm = slotAfter c s.hasAlarm (events c s ops) := by
  induction ops generalizing s l with
  | nil => exact ⟨s, rfl, rfl⟩
  | cons op ops ih =>
    obtain ⟨hm1, hm2⟩ := hm
    obtain ⟨s1, l1, e1, hw1, hfl⟩ := hw.step_slot c h1 h2 h3 op hm1
    rw [e1] at hm2
    obtain ⟨s2, f1, f2⟩ := ih hw1 hm2
    refine ⟨s2, ?_, ?_⟩
    · rw [run_cons_some c s s1 op ops e1]
      exact f1
    · rw [events_cons c s s1 op ops e1, f2, hfl]
      rfl

/-- The flag computed along the history is the reading of `alarmOutstanding`. -/
theorem slotAfter_eq (c : AqCodes) (b : Bool) (evs : List Event) :
    slotAfter c b evs
      = if evs.any (alarmSent c) then alarmOutstanding c evs
        else (b && !evs.any (alarmReceived c)) := by
  induction evs generalizing b with
  | nil => simp [slotAfter]
  | cons e rest ih =>
    rw [slotAfter, ih, alarmOutstanding]
    cases h1 : rest.any (alarmSent c) <;> cases h2 : alarmSent c e <;>
      cases h3 : alarmReceived c e <;> cases h4 : rest.any (alarmReceived c) <;>
      simp [h1, h2, h3, h4]

theorem mallocOkAll_append (c : AqCodes) (s : AlarmQueueStruct) (ops1 ops2 : List Op)
    (h : mallocOkAll c s (ops1 ++ ops2)) : mallocOkAll c s ops1 := by
  induction ops1 generalizing s with
  | nil => trivial
  | cons op ops ih =>
    obtain ⟨h1, h2⟩ := h
    refine ⟨h1, ?_⟩
    cases hst : (AqTsafe.step c (some s) op).after with
    | none => trivial
    | some s1 =>
      rw [hst] at h2
      exact ih s1 h2

theorem exOps_mallocOk : mallocOkAll exCodes exEmpty exOps :=
  ⟨Or.inr rfl, Or.inr rfl, Or.inr rfl, Or.inl rfl, Or.inl rfl, trivial, trivial, trivial,
    Or.inl rfl, trivial⟩

/-- C8 (`aq_size` accounting): for a sequence of calls made one after the
other on a new queue, after every prefix of it the number of `aq_send` calls
that returned `0` minus the number of `aq_recv` calls that returned
`AQ_ALARM` or `AQ_NORMAL` is the number of pending messages; `aq_size` is
this number as an `int`, so it is this number while at most `INT_MAX`
messages are pending; and a call that is neither (a failed or suspended
call, a query) leaves `aq_size` as it was.  The error codes of `aq.h` are
taken to differ from the success codes: `AQ_NULL_MSG` and `AQ_NO_ROOM` from
`0`, `AQ_NO_MSG` from `AQ_ALARM` and `AQ_NORMAL`. -/
theorem C8_size_accounting (c : AqCodes) (h1 : c.AQ_NULL_MSG ≠ 0) (h2 : c.AQ_NO_ROOM ≠ 0)
    (h3 : c.AQ_NO_MSG ≠ c.AQ_ALARM) (h4 : c.AQ_NO_MSG ≠ c.AQ_NORMAL) (q : Ptr)
    (s0 : AlarmQueueStruct) (h0 : aq_create q = some s0) (ops : List Op)
    (hm : mallocOkAll c s0 ops) :
    (∀ pre, pre <+: ops →
      ∃ s1 l1, (run c s0 pre).2 = some s1 ∧ NormalList s1 l1 ∧
        pending s1 l1
          = ((events c s0 pre).countP sendReturned0 : Int)
            - ((events c s0 pre).countP (recvDelivered c) : Int) ∧
        aq_size (some s1)
          = wrapInt (((events c s0 pre).countP sendReturned0 : Int)
            - ((events c s0 pre).countP (recvDelivered c) : Int)) ∧
        (((events c s0 pre).countP sendReturned0 : Int)
            - ((events c s0 pre).countP (recvDelivered c) : Int) ≤ INT_MAX →
          aq_size (some s1)
            = ((events c s0 pre).countP sendReturned0 : Int)
              - ((events c s0 pre).countP (recvDelivered c) : Int))) ∧
    (∀ s op, Reachable c s → mallocOk s op →
      sendReturned0 (op, step c (some s) op) = false →
      recvDelivered c (op, step c (some s) op) = false →
      aq_size (step c (some s) op).after = aq_size (some s)) := by
  refine ⟨?_, ?_⟩
  · rintro pre ⟨suf, rfl⟩
    have hw0 := WF.create q s0 h0
    obtain ⟨s1, l1, e1, hw1, e2⟩ :=
      hw0.run_size c h1 h2 h3 h4 pre (mallocOkAll_append c s0 pre suf hm)
    have hp0 : pending s0 [] = 0 := by
      rw [pending_of_free s0 [] (aq_create_fields q s0 h0).2]
      rfl
    rw [hp0, zero_add] at e2
    refine ⟨s1, l1, e1, hw1.list, e2, ?_, ?_⟩
    · show s1.size = _
      rw [hw1.count, e2]
    · intro hb
      show s1.size = _
      rw [← e2] at hb ⊢
      exact hw1.size_eq hb
  · intro s op hs hmo hs0 hr0
    obtain ⟨l, hw⟩ := hs.wf
    obtain ⟨s1, l1, e1, _, _, _, hsame⟩ := hw.step_size c h1 h2 h3 h4 op hmo
    rw [e1, hsame hs0 hr0]

/-- Witness of C8 on the trace `exOps`: four sends returned `0`, two
receives delivered, and the size is `2`. -/
theorem C8_size_accounting_witness :
    (∀ pre, pre <+: exOps →
      ∃ s1 l1, (run exCodes exEmpty pre).2 = some s1 ∧ NormalList s1 l1 ∧
        pending s1 l1
          = ((events exCodes exEmpty pre).countP sendReturned0 : Int)
            - ((events exCodes exEmpty pre).countP (recvDelivered exCodes) : Int) ∧
        aq_size (some s1)
          = wrapInt (((events exCodes exEmpty pre).countP sendReturned0 : Int)
            - ((events exCodes exEmpty pre).countP (recvDelivered exCodes) : Int)) ∧
        (((events exCodes exEmpty pre).countP sendReturned0 : Int)
            - ((events exCodes exEmpty pre).countP (recvDelivered exCodes) : Int) ≤ INT_MAX →
          aq_size (some s1)
            = ((events exCodes exEmpty pre).countP sendReturned0 : Int)
              - ((events exCodes exEmpty pre).countP (recvDelivered exCodes) : Int))) ∧
    (events exCodes exEmpty exOps).countP sendReturned0 = 4 ∧
    (events exCodes exEmpty exOps).countP (recvDelivered exCodes) = 2 ∧
    aq_size (run exCodes exEmpty exOps).2 = 2 :=
  ⟨(C8_size_accounting exCodes (by decide) (by decide) (by decide) (by decide) 1 exEmpty rfl
      exOps exOps_mallocOk).1, by decide, by decide, by decide⟩

/-- C9 (`aq_alarms` tracks the slot): for a sequence of calls made one after
the other on a new queue, `aq_alarms` then returns `1` exactly when there is
a successful alarm send and the most recent one has not been followed by an
`aq_recv` that returned `AQ_ALARM`, and `0` otherwise; on every handle its
result is `0` or `1`.  The codes of `aq.h` are taken to satisfy
`AQ_NULL_MSG ≠ 0`, `AQ_NO_MSG ≠ AQ_ALARM` and `AQ_NORMAL ≠ AQ_ALARM`. -/
theorem C9_alarms_tracks_slot (c : AqCodes) (h1 : c.AQ_NULL_MSG ≠ 0)
    (h2 : c.AQ_NO_MSG ≠ c.AQ_ALARM) (h3 : c.AQ_NORMAL ≠ c.AQ_ALARM) (q : Ptr)
    (s0 : AlarmQueueStruct) (h0 : aq_create q = some s0) (ops : List Op)
    (hm : mallocOkAll c s0 ops) :
    (∃ s1, (run c s0 ops).2 = some s1 ∧
      (aq_alarms (some s1) = 1 ↔ alarmOutstanding c (events c s0 ops) = true) ∧
      (aq_alarms (some s1) = 0 ↔ alarmOutstanding c (events c s0 ops) = false)) ∧
    (∀ aq, aq_alarms aq = 0 ∨ aq_alarms aq = 1) := by
  refine ⟨?_, ?_⟩
  · have hw0 := WF.create q s0 h0
    obtain ⟨s1, e1, e2⟩ := hw0.run_slot c h1 h2 h3 ops hm
    rw [(aq_create_fields q s0 h0).2, slotAfter_eq] at e2
    have e3 : s1.hasAlarm = alarmOutstanding c (events c s0 ops) := by
      rw [e2]
      cases hany : (events c s0 ops).any (alarmSent c) with
      | true => simp
      | false =>
        have hno : ∀ evs : List Event, evs.any (alarmSent c) = false →
            alarmOutstanding c evs = false := by
          intro evs
          induction evs with
          | nil => intro _; rfl
          | cons e rest ih =>
            intro h
            rw [List.any_cons, Bool.or_eq_false_iff] at h
            rw [alarmOutstanding, h.2, h.1]
            simp
        rw [hno _ hany]
        simp
    refine ⟨s1, e1, ?_, ?_⟩
    · show (if s1.hasAlarm then (1 : Int) else 0) = 1 ↔ _
      rw [e3]
      cases alarmOutstanding c (events c s0 ops) <;> simp
    · show (if s1.hasAlarm then (1 : Int) else 0) = 0 ↔ _
      rw [e3]
      cases alarmOutstanding c (events c s0 ops) <;> simp
  · intro aq
    cases aq with
    | none => exact Or.inl rfl
    | some s =>
      show (if s.hasAlarm then (1 : Int) else 0) = 0 ∨ (if s.hasAlarm then (1 : Int) else 0) = 1
      cases s.hasAlarm <;> simp

/-- Witness of C9 on the trace `exOps`, whose last call is an alarm send
that succeeds after the first alarm was received. -/
theorem C9_alarms_tracks_slot_witness :
    (∃ s1, (run exCodes exEmpty exOps).2 = some s1 ∧
      (aq_alarms (some s1) = 1 ↔ alarmOutstanding exCodes (events exCodes exEmpty exOps) = true) ∧
      (aq_alarms (some s1) = 0 ↔
        alarmOutstanding exCodes (events exCodes exEmpty exOps) = false)) ∧
    alarmOutstanding exCodes (events exCodes exEmpty exOps) = true ∧
    alarmOutstanding exCodes (events exCodes exEmpty (exOps.take 8)) = false ∧
    alarmOutstanding exCodes (events exCodes exEmpty (exOps.take 4)) = true :=
  ⟨(C9_alarms_tracks_slot exCodes (by decide) (by decide) (by decide) 1 exEmpty rfl exOps
      exOps_mallocOk).1, by decide, by decide, by decide⟩

/-- C10 (concrete scenario): on a new queue, with non-null payloads `A`, `B`
and a successful node allocation `n` for the normal send, `aq_send(q, A,
Alarm)` returns `0`, `aq_send(q, B, Normal)` returns `0`, the first `aq_recv`
returns `AQ_ALARM` with `A`, the second returns `AQ_NORMAL` with `B`, and
`aq_size` is then `0`; the two receives give the same results when `B` is
sent before `A`. -/
theorem C10_scenario (c : AqCodes) (hd : c.AQ_NORMAL ≠ c.AQ_ALARM) (q : Ptr)
    (s0 : AlarmQueueStruct) (h0 : aq_create q = some s0) (A B n out : Ptr)
    (hA : A ≠ NULL) (hB : B ≠ NULL) (hn : n ≠ NULL) (hout : out ≠ NULL) :
    (∃ s1 s2 s3 s4,
      aq_send c (some s0) A c.AQ_ALARM NULL = .ret 0 none (some s1) ∧
      aq_send c (some s1) B c.AQ_NORMAL n = .ret 0 none (some s2) ∧
      aq_recv c (some s2) out = .ret c.AQ_ALARM (some A) (some s3) ∧
      aq_recv c (some s3) out = .ret c.AQ_NORMAL (some B) (some s4) ∧
      aq_size (some s4) = 0) ∧
    (∃ s1 s2 s3 s4,
      aq_send c (some s0) B c.AQ_NORMAL n = .ret 0 none (some s1) ∧
      aq_send c (some s1) A c.AQ_ALARM NULL = .ret 0 none (some s2) ∧
      aq_recv c (some s2) out = .ret c.AQ_ALARM (some A) (some s3) ∧
      aq_recv c (some s3) out = .ret c.AQ_NORMAL (some B) (some s4) ∧
      aq_size (some s4) = 0) := by
  have hw0 := WF.create q s0 h0
  obtain ⟨hz, ha0⟩ := aq_create_fields q s0 h0
  have hmem : s0.mem n = none := hw0.exact n (by simp)
  refine ⟨?_, ?_⟩
  · obtain ⟨e1, hw1⟩ := hw0.send_alarm c A NULL hA ha0
    obtain ⟨s2, e2, hw2, ha2, hp2, hz2⟩ := hw1.send_normal c B c.AQ_NORMAL n hB hd hn hmem
    have hz2a : s2.size = wrapInt (wrapInt (s0.size + 1) + 1) := hz2
    rw [hz] at hz2a
    have hne2 : s2.size ≠ 0 := by
      rw [hz2a]
      decide
    obtain ⟨e3, hw3⟩ := hw2.recv_alarm c out hout hne2 ha2
    rw [hp2] at e3
    rw [List.nil_append] at hw2 hw3
    obtain ⟨s4, e4, hw4, ha4, _⟩ :=
      hw3.recv_normal c out hout
        (by
          show wrapInt (s2.size - 1) ≠ 0
          rw [hz2a]
          decide) rfl
    exact ⟨_, s2, _, s4, e1, e2, e3, e4, hw4.size_zero ha4⟩
  · obtain ⟨s1, e1, hw1, ha1, _, hz1⟩ := hw0.send_normal c B c.AQ_NORMAL n hB hd hn hmem
    rw [hz] at hz1
    obtain ⟨e2, hw2⟩ := hw1.send_alarm c A NULL hA (ha1.trans ha0)
    obtain ⟨e3, hw3⟩ :=
      hw2.recv_alarm c out hout
        (by
          show wrapInt (s1.size + 1) ≠ 0
          rw [hz1]
          decide) rfl
    rw [List.nil_append] at hw3
    obtain ⟨s4, e4, hw4, ha4, _⟩ :=
      hw3.recv_normal c out hout
        (by
          show wrapInt (wrapInt (s1.size + 1) - 1) ≠ 0
          rw [hz1]
          decide) rfl
    exact ⟨s1, _, _, s4, e1, e2, e3, e4, hw4.size_zero ha4⟩

/-- Witness of C10 with `A = 7`, `B = 5`, node `10`. -/
theorem C10_scenario_witness :
    (∃ s1 s2 s3 s4,
      aq_send exCodes (some exEmpty) 7 1 NULL = .ret 0 none (some s1) ∧
      aq_send exCodes (some s1) 5 0 10 = .ret 0 none (some s2) ∧
      aq_recv exCodes (some s2) 1 = .ret 1 (some 7) (some s3) ∧
      aq_recv exCodes (some s3) 1 = .ret 0 (some 5) (some s4) ∧
      aq_size (some s4) = 0) ∧
    (∃ s1 s2 s3 s4,
      aq_send exCodes (some exEmpty) 5 0 10 = .ret 0 none (some s1) ∧
      aq_send exCodes (some s1) 7 1 NULL = .ret 0 none (some s2) ∧
      aq_recv exCodes (some s2) 1 = .ret 1 (some 7) (some s3) ∧
      aq_recv exCodes (some s3) 1 = .ret 0 (some 5) (some s4) ∧
      aq_size (some s4) = 0) :=
  C10_scenario exCodes (by decide) 1 exEmpty rfl 7 5 10 1 (by decide) (by decide) (by decide)
    (by decide)

/-- C11 (allocation failure): a send with a valid handle, a non-null payload
and a kind other than `AQ_ALARM` (so kind Normal) whose node allocation
fails returns `AQ_NO_ROOM` and leaves the whole queue state as it was; and,
the code `AQ_NO_ROOM` being different from `0`, `AQ_NULL_MSG` and
`AQ_UNINIT`, a send of kind `AQ_ALARM` never returns `AQ_NO_ROOM`. -/
theorem C11_alloc_failure (c : AqCodes) :
    (∀ s msg k, msg ≠ NULL → k ≠ c.AQ_ALARM →
      aq_send c (some s) msg k NULL = .ret c.AQ_NO_ROOM none (some s)) ∧
    (c.AQ_NO_ROOM ≠ 0 → c.AQ_NO_ROOM ≠ c.AQ_NULL_MSG → c.AQ_NO_ROOM ≠ c.AQ_UNINIT →
      ∀ aq msg n, (aq_send c aq msg c.AQ_ALARM n).code ≠ some c.AQ_NO_ROOM) := by
  refine ⟨?_, ?_⟩
  · intro s msg k hmsg hk
    simp [aq_send, hmsg, hk]
  · intro h0 h1 h2 aq msg n
    cases aq with
    | none => simp [aq_send, Outcome.code, Ne.symm h2]
    | some s =>
      by_cases hmsg : msg = NULL
      · simp [aq_send, hmsg, Outcome.code, Ne.symm h1]
      · cases ha : s.hasAlarm <;> simp [aq_send, hmsg, ha, Outcome.code, Ne.symm h0]

/-- Witness of C11: a normal send of payload `9` on the state `exBoth` with a
failed allocation. -/
theorem C11_alloc_failure_witness :
    aq_send exCodes (some exBoth) 9 exCodes.AQ_NORMAL NULL
        = .ret exCodes.AQ_NO_ROOM none (some exBoth) ∧
    (∀ aq msg n, (aq_send exCodes aq msg exCodes.AQ_ALARM n).code ≠ some exCodes.AQ_NO_ROOM) :=
  ⟨(C11_alloc_failure exCodes).1 exBoth 9 exCodes.AQ_NORMAL (by decide) (by decide),
    (C11_alloc_failure exCodes).2 (by decide) (by decide) (by decide)⟩

/-- C12 (receive blocks exactly on empty): in a reachable state holding at
most `INT_MAX` messages, with a non-null output location, `aq_recv` returns
exactly when `size > 0`; when `size` is `0` it is suspended and the queue is
unchanged; and after a normal send of `Z` (allocation succeeded) on such a
queue, the receive returns `AQ_NORMAL` with `Z`, the queue being empty again
afterwards. -/
theorem C12_recv_blocks_on_empty (c : AqCodes) (s : AlarmQueueStruct) (hs : Reachable c s)
    (l : List (Ptr × Ptr)) (hl : NormalList s l) (hb : pending s l ≤ INT_MAX)
    (msg : Ptr) (hmsg : msg ≠ NULL) :
    ((∃ code out aq1, aq_recv c (some s) msg = .ret code out aq1) ↔ 0 < s.size) ∧
    (s.size = 0 → aq_recv c (some s) msg = .wait (some s)) ∧
    (s.size = 0 → c.AQ_NORMAL ≠ c.AQ_ALARM → ∀ Z n, Z ≠ NULL → n ≠ NULL → s.mem n = none →
      ∃ s1, aq_send c (some s) Z c.AQ_NORMAL n = .ret 0 none (some s1) ∧
        aq_recv c (some s1) msg = .ret c.AQ_NORMAL (some Z) (some s)) := by
  have hw := hs.wf_of_list hl
  have hwait : s.size = 0 → aq_recv c (some s) msg = .wait (some s) := by
    intro h0
    simp [aq_recv, hmsg, h0]
  have hnonneg : 0 ≤ s.size := by
    rw [hw.size_eq hb]
    exact pending_nonneg s l
  refine ⟨⟨?_, ?_⟩, hwait, ?_⟩
  · rintro ⟨code, out, aq1, h⟩
    by_cases h0 : s.size = 0
    · rw [hwait h0] at h
      exact absurd h (by simp)
    · omega
  · intro hpos
    have hne : s.size ≠ 0 := by omega
    cases ha : s.hasAlarm with
    | true => exact ⟨_, _, _, (hw.recv_alarm c msg hmsg hne ha).1⟩
    | false =>
      cases l with
      | nil => exact absurd rfl (hw.ne_nil_of_size ha hne)
      | cons x r =>
        obtain ⟨a, v⟩ := x
        obtain ⟨s1, h1, _⟩ := hw.recv_normal c msg hmsg hne ha
        exact ⟨_, _, _, h1⟩
  · intro h0 hd Z n hZ hn hfresh
    obtain ⟨hnil, ha⟩ := hw.of_size_zero hb h0
    subst hnil
    have hone : wrapInt (s.size + 1) ≠ 0 := by
      rw [h0]
      decide
    obtain ⟨s1, h1, hw1, ha1, _, hz1⟩ := hw.send_normal c Z c.AQ_NORMAL n hZ hd hn hfresh
    rw [List.nil_append] at hw1
    obtain ⟨s2, h2, hw2, ha2, _⟩ :=
      hw1.recv_normal c msg hmsg (by rw [hz1]; exact hone) (ha1.trans ha)
    refine ⟨s1, h1, ?_⟩
    rw [h2, hw2.eq_empty (ha2.trans (ha1.trans ha)), ← hw.eq_empty ha]

/-- Witness of C12 on a new queue, with `Z = 5` in node `10`. -/
theorem C12_recv_blocks_on_empty_witness :
    ((∃ code out aq1, aq_recv exCodes (some exEmpty) 1 = .ret code out aq1) ↔
      0 < exEmpty.size) ∧
    (exEmpty.size = 0 → aq_recv exCodes (some exEmpty) 1 = .wait (some exEmpty)) ∧
    (exEmpty.size = 0 → exCodes.AQ_NORMAL ≠ exCodes.AQ_ALARM →
      ∀ Z n, Z ≠ NULL → n ≠ NULL → exEmpty.mem n = none →
        ∃ s1, aq_send exCodes (some exEmpty) Z exCodes.AQ_NORMAL n = .ret 0 none (some s1) ∧
          aq_recv exCodes (some s1) 1 = .ret exCodes.AQ_NORMAL (some Z) (some exEmpty)) :=
  C12_recv_blocks_on_empty exCodes exEmpty exEmpty_reachable [] ⟨rfl, trivial⟩ (by decide) 1
    (by decide)

/-- C13 (queries are read-only): on the `NULL` handle `aq_size` and
`aq_alarms` return `0`, not an error code; on a valid handle they return
`size` and `1` or `0` according to `hasAlarm`; as calls they return with
nothing stored and the queue (list, slot, `size`) exactly as it was. -/
theorem C13_queries_read_only (c : AqCodes) :
    aq_size none = 0 ∧ aq_alarms none = 0 ∧
    (∀ s, aq_size (some s) = s.size ∧ aq_alarms (some s) = (if s.hasAlarm then 1 else 0)) ∧
    (∀ aq, step c aq .size = .ret (aq_size aq) none aq ∧
      step c aq .alarms = .ret (aq_alarms aq) none aq) :=
  ⟨rfl, rfl, fun _ => ⟨rfl, rfl⟩, fun _ => ⟨rfl, rfl⟩⟩

/-- Draining a well-formed state holding at most `INT_MAX` messages: `size`
receives return the alarm first when there is one, then the payloads of the
cells in order, and leave the state of a new queue. -/
theorem WF.drain (c : AqCodes) (out : Ptr) (hout : out ≠ NULL) {s : AlarmQueueStruct}
    {l : List (Ptr × Ptr)} (hw : WF s l) (hb : pending s l ≤ INT_MAX) :
    (run c s (List.replicate (aq_size (some s)).toNat (Op.recv out))).1.map Outcome.obs
      = (if s.hasAlarm then [(some c.AQ_ALARM, some s.alarm_payload)] else [])
          ++ l.map (fun x => (some c.AQ_NORMAL, some x.2)) ∧
    (run c s (List.replicate (aq_size (some s)).toNat (Op.recv out))).2
      = some { head := NULL, tail := NULL, hasAlarm := false, alarm_payload := NULL, size := 0,
               mem := fun _ => none } := by
  have hsize : aq_size (some s) = pending s l := hw.size_eq hb
  cases ha : s.hasAlarm with
  | false =>
    have hp := pending_of_free s l ha
    have hsz : (aq_size (some s)).toNat = l.length := by
      rw [hsize, hp]
      simp
    obtain ⟨s1, e1, e2, hw1, ha1⟩ := hw.run_recvs c out hout ha (by rw [← hp]; exact hb)
    rw [hsz, e1, e2, hw1.eq_empty ha1]
    simp
  | true =>
    have hp := pending_of_alarm s l ha
    have hsz : (aq_size (some s)).toNat = l.length + 1 := by
      rw [hsize, hp]
      omega
    rw [hp] at hb
    have hne : s.size ≠ 0 := by
      have : s.size = pending s l := hsize
      rw [this, hp]
      omega
    obtain ⟨h1, hw1⟩ := hw.recv_alarm c out hout hne ha
    have hst : (AqTsafe.step c (some s) (Op.recv out)).after
        = some { s with alarm_payload := NULL, hasAlarm := false,
                        size := wrapInt (s.size - 1) } := by
      show (aq_recv c (some s) out).after = _
      rw [h1]
      rfl
    obtain ⟨s2, e1, e2, hw2, ha2⟩ := hw1.run_recvs c out hout rfl (by omega)
    rw [hsz, List.replicate_succ, run_cons_some c s _ (Op.recv out) _ hst]
    refine ⟨?_, ?_⟩
    · show Outcome.obs (aq_recv c (some s) out) :: _ = _
      rw [h1, e1]
      rfl
    · show (AqTsafe.run c _ _).2 = _
      rw [e2, hw2.eq_empty ha2]

/-- C15 (full drain order): in a reachable state whose normal list holds the
cells `l`, at most `INT_MAX` messages being pending, `aq_size(q)` consecutive
receives all return (none is suspended): first `AQ_ALARM` with the alarm
payload when the slot is occupied, then `AQ_NORMAL` with the payloads of `l`
in list order; afterwards the queue is in the state of a new queue (empty
list, no alarm, size 0). -/
theorem C15_full_drain (c : AqCodes) (s : AlarmQueueStruct) (hs : Reachable c s)
    (l : List (Ptr × Ptr)) (hl : NormalList s l) (hb : pending s l ≤ INT_MAX)
    (out : Ptr) (hout : out ≠ NULL) :
    (run c s (List.replicate (aq_size (some s)).toNat (Op.recv out))).1.map Outcome.obs
      = (if s.hasAlarm then [(some c.AQ_ALARM, some s.alarm_payload)] else [])
          ++ l.map (fun x => (some c.AQ_NORMAL, some x.2)) ∧
    (run c s (List.replicate (aq_size (some s)).toNat (Op.recv out))).2
      = some { head := NULL, tail := NULL, hasAlarm := false, alarm_payload := NULL, size := 0,
               mem := fun _ => none } :=
  (hs.wf_of_list hl).drain c out hout hb

/-- Witness of C15 on the state holding the normal message `5` and the
alarm `7`. -/
theorem C15_full_drain_witness :
    (run exCodes exBoth (List.replicate (aq_size (some exBoth)).toNat (Op.recv 1))).1.map
        Outcome.obs
      = (if exBoth.hasAlarm then [(some exCodes.AQ_ALARM, some exBoth.alarm_payload)] else [])
          ++ [(10, 5)].map (fun x => (some exCodes.AQ_NORMAL, some x.2)) ∧
    (run exCodes exBoth (List.replicate (aq_size (some exBoth)).toNat (Op.recv 1))).2
      = some { head := NULL, tail := NULL, hasAlarm := false, alarm_payload := NULL, size := 0,
               mem := fun _ => none } :=
  C15_full_drain exCodes exBoth exBoth_reachable [(10, 5)]
    ⟨rfl, by decide, rfl, trivial⟩ (by decide) 1 (by decide)

/-- C16 (send touches only its own channel): in a reachable state whose
normal list holds the cells `l`, with room for one more message below
`INT_MAX`, and with a non-null payload, a normal send whose allocation
succeeded returns `0`, makes the list `l` followed by the new cell, adds one
to `size` and leaves `hasAlarm` and the alarm payload as they were; an alarm
send on a free slot returns `0`, sets the slot to the payload, adds one to
`size` and leaves `head`, `tail` and the nodes as they were. -/
theorem C16_send_frame (c : AqCodes) (s : AlarmQueueStruct) (hs : Reachable c s)
    (l : List (Ptr × Ptr)) (hl : NormalList s l) (hb : pending s l + 1 ≤ INT_MAX)
    (msg : Ptr) (hmsg : msg ≠ NULL) :
    (c.AQ_NORMAL ≠ c.AQ_ALARM → ∀ n, n ≠ NULL → s.mem n = none →
      ∃ s1, aq_send c (some s) msg c.AQ_NORMAL n = .ret 0 none (some s1) ∧
        NormalList s1 (l ++ [(n, msg)]) ∧ s1.size = s.size + 1 ∧
        s1.hasAlarm = s.hasAlarm ∧ s1.alarm_payload = s.alarm_payload) ∧
    (s.hasAlarm = false → ∀ n,
      aq_send c (some s) msg c.AQ_ALARM n
        = .ret 0 none
            (some { s with alarm_payload := msg, hasAlarm := true, size := s.size + 1 })) := by
  have hw := hs.wf_of_list hl
  have hsz : s.size = pending s l := hw.size_eq (by omega)
  have hwrap : wrapInt (s.size + 1) = s.size + 1 := by
    have h0 := pending_nonneg s l
    exact wrapInt_of_range _ (by omega) (by omega)
  refine ⟨?_, ?_⟩
  · intro hd n hn hfresh
    obtain ⟨s1, h1, hw1, ha1, hp1, hz1⟩ := hw.send_normal c msg c.AQ_NORMAL n hmsg hd hn hfresh
    exact ⟨s1, h1, hw1.list, hz1.trans hwrap, ha1, hp1⟩
  · intro ha n
    rw [(hw.send_alarm c msg n hmsg ha).1, hwrap]

/-- Witness of C16: sends of payload `9` on the state `exBoth` (normal, node
`11`) and on a new queue (alarm). -/
theorem C16_send_frame_witness :
    (∃ s1, aq_send exCodes (some exBoth) 9 exCodes.AQ_NORMAL 11 = .ret 0 none (some s1) ∧
        NormalList s1 ([(10, 5)] ++ [(11, 9)]) ∧ s1.size = exBoth.size + 1 ∧
        s1.hasAlarm = exBoth.hasAlarm ∧ s1.alarm_payload = exBoth.alarm_payload) ∧
    aq_send exCodes (some exEmpty) 9 exCodes.AQ_ALARM 0
      = .ret 0 none
          (some { exEmpty with alarm_payload := 9, hasAlarm := true,
                               size := exEmpty.size + 1 }) :=
  ⟨(C16_send_frame exCodes exBoth exBoth_reachable [(10, 5)] ⟨rfl, by decide, rfl, trivial⟩
      (by decide) 9 (by decide)).1 (by decide) 11 (by decide) rfl,
    (C16_send_frame exCodes exEmpty exEmpty_reachable [] ⟨rfl, trivial⟩ (by decide) 9
      (by decide)).2 rfl 0⟩

/-- The first address of a chain is `NULL` only for the empty chain. -/
theorem Chain.firstAddr_eq_null {mem : Heap} {l : List (Ptr × Ptr)} (hc : Chain mem l) :
    firstAddr l = NULL ↔ l = [] := by
  cases l with
  | nil => simp [firstAddr]
  | cons x r =>
    obtain ⟨a, v⟩ := x
    have ha : a ≠ NULL := hc.1
    simp [firstAddr, ha]

/-- C17 (no null-head dereference in `aq_recv`): in every reachable state,
if `size` is not `0` (in particular if `size > 0`) and the slot is free then
`head` is non-null and points to a live node, so no `aq_recv` faults; and,
while at most `INT_MAX` messages are pending, `size` is `0` exactly when the
normal list is empty (`head` is `NULL`) and the slot is free. -/
theorem C17_no_null_head (c : AqCodes) (s : AlarmQueueStruct) (hs : Reachable c s) :
    (s.size ≠ 0 → s.hasAlarm = false →
      s.head ≠ NULL ∧ ∃ node, deref s.mem s.head = some node) ∧
    (∀ msg, aq_recv c (some s) msg ≠ .fault) ∧
    (∀ l, NormalList s l → pending s l ≤ INT_MAX →
      ((s.size = 0 ↔ l = [] ∧ s.hasAlarm = false) ∧
       (s.size = 0 ↔ s.head = NULL ∧ s.hasAlarm = false))) := by
  obtain ⟨l, hw⟩ := hs.wf
  have hlive : s.size ≠ 0 → s.hasAlarm = false →
      s.head ≠ NULL ∧ ∃ node, deref s.mem s.head = some node := by
    intro hne ha
    cases l with
    | nil => exact absurd rfl (hw.ne_nil_of_size ha hne)
    | cons x r =>
      obtain ⟨a, v⟩ := x
      have hhead : s.head = a := hw.list.1
      obtain ⟨ha0, hma, _⟩ := hw.list.2
      refine ⟨hhead ▸ ha0, { payload := v, next := firstAddr r }, ?_⟩
      unfold deref
      rw [hhead, if_neg ha0]
      exact hma
  refine ⟨hlive, ?_, ?_⟩
  · intro msg
    by_cases hmsg : msg = NULL
    · simp [aq_recv, hmsg]
    by_cases h0 : s.size = 0
    · simp [aq_recv, hmsg, h0]
    cases ha : s.hasAlarm with
    | true => simp [aq_recv, hmsg, h0, ha]
    | false =>
      obtain ⟨_, node, hnode⟩ := hlive h0 ha
      simp [aq_recv, hmsg, h0, ha, hnode]
  · intro l1 hl1 hb
    rw [NormalList.cells_determined hl1 hw.list] at hb ⊢
    have hiff : s.size = 0 ↔ l = [] ∧ s.hasAlarm = false := by
      constructor
      · exact hw.of_size_zero hb
      · rintro ⟨rfl, ha⟩
        exact hw.size_zero ha
    refine ⟨hiff, ?_⟩
    rw [hiff, hw.list.1, hw.list.2.firstAddr_eq_null]

/-- Witness of C17 on the state holding one normal message (payload `5`,
node `10`) and no alarm. -/
theorem C17_no_null_head_witness :
    (exOne.size ≠ 0 → exOne.hasAlarm = false →
      exOne.head ≠ NULL ∧ ∃ node, deref exOne.mem exOne.head = some node) ∧
    (∀ msg, aq_recv exCodes (some exOne) msg ≠ .fault) ∧
    (∀ l, NormalList exOne l → pending exOne l ≤ INT_MAX →
      ((exOne.size = 0 ↔ l = [] ∧ exOne.hasAlarm = false) ∧
       (exOne.size = 0 ↔ exOne.head = NULL ∧ exOne.hasAlarm = false))) :=
  C17_no_null_head exCodes exOne exOne_reachable

/-- C18 (kind dispatch is binary on `AQ_ALARM`): with a valid handle and a
non-null payload, a send whose kind is any value other than `AQ_ALARM` does
what the send of kind `AQ_NORMAL` does; it is never suspended, whatever the
alarm slot holds; and in a reachable state, when its allocation succeeded,
it returns `0`, puts the payload in a new last cell of the normal list, and
(the queue then holding at most `INT_MAX` messages) draining the queue
delivers this payload last, with result `AQ_NORMAL`. -/
theorem C18_kind_dispatch (c : AqCodes) (s : AlarmQueueStruct) (msg : Ptr) (k : Int) (n : Ptr)
    (hmsg : msg ≠ NULL) (hk : k ≠ c.AQ_ALARM) :
    (c.AQ_NORMAL ≠ c.AQ_ALARM →
      aq_send c (some s) msg k n = aq_send c (some s) msg c.AQ_NORMAL n) ∧
    (∀ aq1, aq_send c (some s) msg k n ≠ .wait aq1) ∧
    (Reachable c s → n ≠ NULL → s.mem n = none → ∀ l, NormalList s l →
      pending s l + 1 ≤ INT_MAX → ∀ out, out ≠ NULL →
      ∃ s1, aq_send c (some s) msg k n = .ret 0 none (some s1) ∧
        NormalList s1 (l ++ [(n, msg)]) ∧
        (run c s1 (List.replicate (aq_size (some s1)).toNat (Op.recv out))).1.map Outcome.obs
          = (if s.hasAlarm then [(some c.AQ_ALARM, some s.alarm_payload)] else [])
              ++ l.map (fun x => (some c.AQ_NORMAL, some x.2))
              ++ [(some c.AQ_NORMAL, some msg)]) := by
  refine ⟨?_, ?_, ?_⟩
  · intro hd
    simp only [aq_send, if_neg hmsg, if_neg hk, if_neg hd]
  · intro aq1
    unfold aq_send
    simp only [if_neg hmsg, if_neg hk]
    split_ifs
    · simp
    · split <;> simp
    · simp
  · intro hs hn hfresh l hl hb out hout
    have hw := hs.wf_of_list hl
    obtain ⟨s1, h1, hw1, ha1, hp1, _⟩ := hw.send_normal c msg k n hmsg hk hn hfresh
    refine ⟨s1, h1, hw1.list, ?_⟩
    have hb1 : pending s1 (l ++ [(n, msg)]) ≤ INT_MAX := by
      have : pending s1 (l ++ [(n, msg)]) = pending s l + 1 := by
        unfold pending
        rw [ha1, List.length_append, List.length_singleton]
        push_cast
        ring
      rw [this]
      exact hb
    rw [(hw1.drain c out hout hb1).1, ha1, hp1]
    simp

/-- Witness of C18: a send of kind `42` and payload `9` (node `11`) on the
state `exBoth`, whose alarm slot is occupied. -/
theorem C18_kind_dispatch_witness :
    (exCodes.AQ_NORMAL ≠ exCodes.AQ_ALARM →
      aq_send exCodes (some exBoth) 9 42 11
        = aq_send exCodes (some exBoth) 9 exCodes.AQ_NORMAL 11) ∧
    (∀ aq1, aq_send exCodes (some exBoth) 9 42 11 ≠ .wait aq1) ∧
    (Reachable exCodes exBoth → (11 : Ptr) ≠ NULL → exBoth.mem 11 = none →
      ∀ l, NormalList exBoth l → pending exBoth l + 1 ≤ INT_MAX → ∀ out, out ≠ NULL →
      ∃ s1, aq_send exCodes (some exBoth) 9 42 11 = .ret 0 none (some s1) ∧
        NormalList s1 (l ++ [(11, 9)]) ∧
        (run exCodes s1 (List.replicate (aq_size (some s1)).toNat (Op.recv out))).1.map
            Outcome.obs
          = (if exBoth.hasAlarm then [(some exCodes.AQ_ALARM, some exBoth.alarm_payload)]
              else [])
              ++ l.map (fun x => (some exCodes.AQ_NORMAL, some x.2))
              ++ [(some exCodes.AQ_NORMAL, some 9)]) :=
  C18_kind_dispatch exCodes exBoth 9 42 11 (by decide) (by decide)

end AqTsafe
